import Mathlib

/-! Schema projection of the Kubernetes manifest provider.

A shallow embedding of `manifest/provider/provider.go`: the two schema
registries, the projection of a schema document to an object type
(`GetObjectTypeFromSchema`) and the two lookup helpers (`GetResourceType`,
`GetDataSourceType`).

Conventions of the embedding.

* A Go `map[string]V` is a finite map with unordered, unique keys. It is
  embedded as an association list kept in strictly increasing key order, so
  that two Go maps with the same content are the same Lean value and Lean
  equality is structural equality of the Go values.
* A pointer-typed struct field (`Schema.Block`, `SchemaNestedBlock.Block`) is
  an `Option`; dereferencing `nil` panics, and a function that can panic
  returns `Option`, `none` standing for the panic.
* The schema documents are embedded twice. `Schema`, `SchemaBlock` and
  `SchemaNestedBlock` hold the elements of the slices `[]*SchemaAttribute` and
  `[]*SchemaNestedBlock` as records: they are the documents none of whose slices
  holds a nil element, as in every literal of the registries.
  `Nilable.Schema`, `Nilable.SchemaBlock` and `Nilable.SchemaNestedBlock` hold
  them as pointers, and `Nilable.GetObjectTypeFromSchema` is the function on
  every value of its argument type; the claims about every schema document are
  stated of it. The two functions agree on the documents without nil elements
  (`nilable_projection_lift`).
* `int64` fields are `Int`; no arithmetic is done on them.
* A Go `error` is `Option String`: `none` is the nil error, `some msg` an error
  whose message is `msg`.
* A Go `string` is a `String`. The verb `%q` of `fmt.Errorf` is
  `strconv.Quote`; the tables that `strconv.IsPrint` consults beyond Latin-1
  are a parameter, `wide`, of the functions that format with `%q`.
-/

namespace provider

/-! ## Go maps with string keys -/

/-- Lexicographic order on sequences of code points, as a boolean. -/
def ltCodes : List Nat → List Nat → Bool
  | [], [] => false
  | [], _ :: _ => true
  | _ :: _, [] => false
  | a :: as, b :: bs => decide (a < b) || (decide (a = b) && ltCodes as bs)

/-- The strict order on keys under which the association lists are kept. -/
def keyLt (a b : String) : Bool :=
  ltCodes (a.data.map Char.toNat) (b.data.map Char.toNat)

/-- A Go `map[string]β`: an association list, kept sorted by `GoMap.insert`. -/
abbrev GoMap (β : Type) : Type := List (String × β)

namespace GoMap

/-- The empty map, `map[string]β{}`. -/
def empty {β : Type} : GoMap β := []

/-- The assignment `m[k] = v`: overwrites the entry of `k` when there is one. -/
def insert {β : Type} (m : GoMap β) (k : String) (v : β) : GoMap β :=
  match m with
  | [] => [(k, v)]
  | (k', v') :: rest =>
    if keyLt k k' then (k, v) :: (k', v') :: rest
    else if k = k' then (k, v) :: rest
    else (k', v') :: insert rest k v

/-- The two-valued index expression `v, ok := m[k]`. -/
def lookup {β : Type} (m : GoMap β) (k : String) : Option β :=
  match m with
  | [] => none
  | (k', v') :: rest => if k = k' then some v' else lookup rest k

/-- The keys of the map, in the order they are stored. -/
def keys {β : Type} (m : GoMap β) : List String := m.map Prod.fst

/-- A composite literal `map[string]β{k1: v1, ...}`. -/
def ofList {β : Type} (kvs : List (String × β)) : GoMap β :=
  kvs.foldl (fun m kv => insert m kv.1 kv.2) empty

end GoMap

/-! ## The types of `tftypes` and the schema documents of `tfprotov5` -/

/-- A `tftypes.Type`: the primitives, the dynamic pseudo-type and the composites. -/
inductive TfType where
  | String
  | Number
  | Bool
  | DynamicPseudoType
  | List (ElementType : TfType)
  | Set (ElementType : TfType)
  | Map (ElementType : TfType)
  | Tuple (ElementTypes : List TfType)
  | Object (AttributeTypes : List (String × TfType))

/-- The enumeration `tfprotov5.StringKind`; `0` is plain text. -/
inductive StringKind where
  | Plain
  | Markdown

/-- The enumeration `tfprotov5.SchemaNestedBlockNestingMode`. -/
inductive SchemaNestedBlockNestingMode where
  | Invalid
  | Single
  | List
  | Set
  | Map
  | Group
  deriving DecidableEq

/-- A `tfprotov5.SchemaAttribute`; the defaults are the Go zero values of the
fields a literal may leave out. The Go field `Type` is written `Type_`, `Type`
being reserved; every literal of the file sets it, and it has no default. -/
structure SchemaAttribute where
  Name : String
  Type_ : TfType
  Description : String := ""
  Required : Bool := false
  Optional : Bool := false
  Computed : Bool := false
  Sensitive : Bool := false
  DescriptionKind : StringKind := StringKind.Plain
  Deprecated : Bool := false

mutual
/-- A `tfprotov5.SchemaBlock`: `Version`, `Attributes`, `BlockTypes`,
`Description`, `DescriptionKind`, `Deprecated`. -/
inductive SchemaBlock where
  | mk (Version : Int) (Attributes : List SchemaAttribute)
      (BlockTypes : List SchemaNestedBlock) (Description : String)
      (DescriptionKind : StringKind) (Deprecated : Bool)
/-- A `tfprotov5.SchemaNestedBlock`: `TypeName`, `Block` (a pointer), `Nesting`,
`MinItems`, `MaxItems`. -/
inductive SchemaNestedBlock where
  | mk (TypeName : String) (Block : Option SchemaBlock)
      (Nesting : SchemaNestedBlockNestingMode) (MinItems : Int) (MaxItems : Int)
end

/-- The field `Attributes` of a block. -/
def SchemaBlock.Attributes : SchemaBlock → List SchemaAttribute
  | .mk _ attrs _ _ _ _ => attrs

/-- The field `BlockTypes` of a block. -/
def SchemaBlock.BlockTypes : SchemaBlock → List SchemaNestedBlock
  | .mk _ _ bts _ _ _ => bts

/-- The field `TypeName` of a nested block. -/
def SchemaNestedBlock.TypeName : SchemaNestedBlock → String
  | .mk n _ _ _ _ => n

/-- The field `Block` of a nested block; `none` is the nil pointer. -/
def SchemaNestedBlock.Block : SchemaNestedBlock → Option SchemaBlock
  | .mk _ b _ _ _ => b

/-- The field `Nesting` of a nested block. -/
def SchemaNestedBlock.Nesting : SchemaNestedBlock → SchemaNestedBlockNestingMode
  | .mk _ _ n _ _ => n

/-- The field `MinItems` of a nested block. -/
def SchemaNestedBlock.MinItems : SchemaNestedBlock → Int
  | .mk _ _ _ lo _ => lo

/-- The field `MaxItems` of a nested block. -/
def SchemaNestedBlock.MaxItems : SchemaNestedBlock → Int
  | .mk _ _ _ _ hi => hi

/-- Whether a pointer is non-nil can be decided. -/
instance decNeNone {α : Type} (o : Option α) : Decidable (o ≠ none) :=
  match o with
  | none => isFalse (fun h => h rfl)
  | some _ => isTrue (fun h => Option.noConfusion h)

/-- A `tfprotov5.Schema`; `Block` is a pointer, `none` when nil. -/
structure Schema where
  Version : Int := 0
  Block : Option SchemaBlock := none

/-! ## The projection -/

/-- The loop `for _, att := range attrs { m[att.Name] = att.Type }`, run on the
map `m`. -/
def addAttributes (m : GoMap TfType) (attrs : List SchemaAttribute) : GoMap TfType :=
  attrs.foldl (fun acc att => GoMap.insert acc att.Name att.Type_) m

/-- One iteration of the loop over `schema.Block.BlockTypes`: builds the map of
the nested block's attributes and stores its list-of-object type under
`b.TypeName`. Panics (`none`) when `b.Block` is nil. -/
def addBlockType (bm : GoMap TfType) (b : SchemaNestedBlock) : Option (GoMap TfType) :=
  match b.Block with
  | none => none
  | some blk =>
    let attrs := addAttributes GoMap.empty blk.Attributes
    some (GoMap.insert bm b.TypeName (TfType.List (TfType.Object attrs)))

/-- The loop `for _, b := range schema.Block.BlockTypes`, run on the map `bm`. -/
def addBlockTypes (bm : GoMap TfType) : List SchemaNestedBlock → Option (GoMap TfType)
  | [] => some bm
  | b :: rest =>
    match addBlockType bm b with
    | none => none
    | some bm' => addBlockTypes bm' rest

/-- The function `GetObjectTypeFromSchema`: `none` when a nil `Block` is
dereferenced. -/
def GetObjectTypeFromSchema (schema : Schema) : Option TfType :=
  match schema.Block with
  | none => none
  | some root =>
    let bm := addAttributes GoMap.empty root.Attributes
    match addBlockTypes bm root.BlockTypes with
    | none => none
    | some bm' => some (TfType.Object bm')

/-! ## The registries -/

/-- The package variable `waitForType`. -/
def waitForType : TfType :=
  TfType.Object (GoMap.ofList [("fields", TfType.Map TfType.String)])

/-- The schema document that `GetProviderResourceSchema` registers under
`kubernetes_manifest`. -/
def kubernetesManifestSchema : Schema :=
    {
      Version := 1
      Block := some (SchemaBlock.mk 0
        [ { Name := "manifest"
            Type_ := TfType.DynamicPseudoType
            Required := true
            Description := "A Kubernetes manifest describing the desired state of the resource in HCL format." },
          { Name := "object"
            Type_ := TfType.DynamicPseudoType
            Optional := true
            Computed := true
            Description := "The resulting resource state, as returned by the API server after applying the desired state from `manifest`." },
          { Name := "wait_for"
            Type_ := waitForType
            Optional := true
            Description := "A map of attribute paths and desired patterns to be matched. After each apply the provider will wait for all attributes listed here to reach a value that matches the desired pattern." },
          { Name := "computed_fields"
            Type_ := TfType.List TfType.String
            Description := "List of manifest fields whose values can be altered by the API server during \x27apply\x27. Defaults to: [\"metadata.annotations\", \"metadata.labels\"]"
            Optional := true } ]
        [ SchemaNestedBlock.mk "timeouts"
            (some (SchemaBlock.mk 0
              [ { Name := "create"
                  Type_ := TfType.String
                  Description := "Timeout for the create operation."
                  Optional := true },
                { Name := "update"
                  Type_ := TfType.String
                  Description := "Timeout for the update operation."
                  Optional := true },
                { Name := "delete"
                  Type_ := TfType.String
                  Description := "Timeout for the delete operation."
                  Optional := true } ]
              [] "" StringKind.Plain false))
            SchemaNestedBlockNestingMode.List 0 1,
          SchemaNestedBlock.mk "field_manager"
            (some (SchemaBlock.mk 0
              [ { Name := "name"
                  Type_ := TfType.String
                  Required := false
                  Optional := true
                  Computed := false
                  Sensitive := false
                  Description := "The name to use for the field manager when creating and updating the resource."
                  DescriptionKind := StringKind.Plain
                  Deprecated := false },
                { Name := "force_conflicts"
                  Type_ := TfType.Bool
                  Required := false
                  Optional := true
                  Computed := false
                  Sensitive := false
                  Description := "Force changes against conflicts."
                  DescriptionKind := StringKind.Plain
                  Deprecated := false } ]
              [] "Configure field manager options." StringKind.Plain false))
            SchemaNestedBlockNestingMode.List 0 1 ]
        "" StringKind.Plain false) }

/-- The function `GetProviderResourceSchema`: the definitions of all supported
resources. -/
def GetProviderResourceSchema : GoMap Schema :=
  GoMap.ofList [("kubernetes_manifest", kubernetesManifestSchema)]

/-- The schema document that `GetProviderDataSourceSchema` registers under
`kubernetes_resource`. -/
def kubernetesResourceSchema : Schema :=
    {
      Version := 1
      Block := some (SchemaBlock.mk 0
        [ { Name := "api_version"
            Type_ := TfType.String
            Required := true
            Description := "The resource apiVersion." },
          { Name := "kind"
            Type_ := TfType.String
            Required := true
            Description := "The resource kind." },
          { Name := "object"
            Type_ := TfType.DynamicPseudoType
            Optional := true
            Computed := true
            Description := "The response from the API server." },
          { Name := "wait_for"
            Type_ := waitForType
            Optional := true
            Description := "A map of attribute paths and desired patterns to be matched. After each apply the provider will wait for all attributes listed here to reach a value that matches the desired pattern." } ]
        [ SchemaNestedBlock.mk "metadata"
            (some (SchemaBlock.mk 0
              [ { Name := "name"
                  Type_ := TfType.String
                  Required := true
                  Description := "The resource name." },
                { Name := "namespace"
                  Type_ := TfType.String
                  Optional := true
                  Description := "The resource namespace." } ]
              [] "Metadata for the resource" StringKind.Plain false))
            SchemaNestedBlockNestingMode.List 1 1 ]
        "" StringKind.Plain false) }

/-- The function `GetProviderDataSourceSchema`: the definitions of all
supported data sources. -/
def GetProviderDataSourceSchema : GoMap Schema :=
  GoMap.ofList [("kubernetes_resource", kubernetesResourceSchema)]

/-! ## Error messages: `fmt.Errorf` with the verbs `%s` and `%q`

A Go string is embedded as a `String`, a sequence of Unicode scalar values;
the invalid-UTF-8 branch of `strconv.Quote` has no counterpart. The verb `%s`
writes its operand as it is; the verb `%q` writes `strconv.Quote` of it. -/

/-- The double quote, `quote` in `strconv`. -/
def dquote : Char := Char.ofNat 34

/-- The backslash. -/
def backslash : Char := Char.ofNat 92

/-- The digit `lowerhex[n]` of `strconv`. -/
def lowerhex (n : Nat) : Char := "0123456789abcdef".data.getD n '0'

/-- The function `strconv.IsPrint`: decided on the spot for Latin-1, and by the
tables of `strconv` beyond it; the tables are the parameter `wide`. -/
def IsPrint (wide : Char → Bool) (r : Char) : Bool :=
  if r.toNat ≤ 0xFF then
    if 0x20 ≤ r.toNat ∧ r.toNat ≤ 0x7E then true
    else if 0xA1 ≤ r.toNat ∧ r.toNat ≤ 0xFF then decide (r.toNat ≠ 0xAD)
    else false
  else wide r

/-- The function `appendEscapedRune` of `strconv`, for the double quote and
neither `ASCIIonly` nor `graphicOnly`. -/
def appendEscapedRune (wide : Char → Bool) (buf : List Char) (r : Char) : List Char :=
  if r = dquote ∨ r = backslash then buf ++ [backslash, r]
  else if IsPrint wide r then buf ++ [r]
  else if r.toNat = 7 then buf ++ [backslash, 'a']
  else if r.toNat = 8 then buf ++ [backslash, 'b']
  else if r.toNat = 12 then buf ++ [backslash, 'f']
  else if r.toNat = 10 then buf ++ [backslash, 'n']
  else if r.toNat = 13 then buf ++ [backslash, 'r']
  else if r.toNat = 9 then buf ++ [backslash, 't']
  else if r.toNat = 11 then buf ++ [backslash, 'v']
  else if r.toNat < 0x20 ∨ r.toNat = 0x7F then
    buf ++ [backslash, 'x', lowerhex (r.toNat / 16 % 16), lowerhex (r.toNat % 16)]
  else if r.toNat < 0x10000 then
    buf ++ backslash :: 'u' :: [12, 8, 4, 0].map (fun s => lowerhex (r.toNat / 2 ^ s % 16))
  else
    buf ++ backslash :: 'U' ::
      [28, 24, 20, 16, 12, 8, 4, 0].map (fun s => lowerhex (r.toNat / 2 ^ s % 16))

/-- The function `strconv.Quote`, which the verb `%q` applies to a string. -/
def Quote (wide : Char → Bool) (s : String) : String :=
  String.mk (s.data.foldl (appendEscapedRune wide) [dquote] ++ [dquote])

/-! ## The lookup helpers -/

/-- The function `GetResourceType`: the type and the error it returns, `none`
when the projection panics. -/
def GetResourceType (name : String) : Option (TfType × Option String) :=
  let sch := GetProviderResourceSchema
  match GoMap.lookup sch name with
  | none =>
    some (TfType.DynamicPseudoType, some ("unknown resource " ++ name ++ " - cannot find schema"))
  | some rsch =>
    match GetObjectTypeFromSchema rsch with
    | none => none
    | some t => some (t, none)

/-- The function `GetDataSourceType`: the type and the error it returns, `none`
when the projection panics. The parameter `wide` is the table part of
`strconv.IsPrint`, which `%q` consults. -/
def GetDataSourceType (wide : Char → Bool) (name : String) : Option (TfType × Option String) :=
  let sch := GetProviderDataSourceSchema
  match GoMap.lookup sch name with
  | none =>
    some (TfType.DynamicPseudoType,
      some ("unknown data source " ++ Quote wide name ++ ": cannot find schema"))
  | some rsch =>
    match GetObjectTypeFromSchema rsch with
    | none => none
    | some t => some (t, none)

/-! ## Reading an object type -/

/-- The entry `t.AttributeTypes[k]` of an object type; `none` when `t` is not
an object type or has no field `k`. -/
def attributeType (t : TfType) (k : String) : Option TfType :=
  match t with
  | TfType.Object m => GoMap.lookup m k
  | _ => none

/-- The field names of an object type; empty when `t` is not an object type. -/
def fieldNames (t : TfType) : List String :=
  match t with
  | TfType.Object m => GoMap.keys m
  | _ => []

/-- The `(Name, Type)` pairs of a sequence of attributes. -/
def attributePairs (attrs : List SchemaAttribute) : List (String × TfType) :=
  attrs.map (fun att => (att.Name, att.Type_))

/-- A map is sorted when its keys are strictly increasing. -/
def GoMap.Sorted {β : Type} (m : GoMap β) : Prop :=
  List.Pairwise (fun a b => keyLt a.1 b.1 = true) m

/-- The type the loop stores for a nested block whose `Block` is `blk`. -/
def nestedType (blk : SchemaBlock) : TfType :=
  TfType.List (TfType.Object (addAttributes GoMap.empty blk.Attributes))

/-- What the projection reads of a nested block: its `TypeName` and, when its
`Block` is not nil, the `(Name, Type)` pairs of its attributes. -/
def nestedSignature (b : SchemaNestedBlock) : String × Option (List (String × TfType)) :=
  (b.TypeName, b.Block.map (fun blk => attributePairs blk.Attributes))

/-- What the projection reads of a schema document, when its `Block` is not
nil: the `(Name, Type)` pairs of the root attributes and the signatures of the
nested blocks, both in sequence order. -/
def schemaSignature (schema : Schema) :
    Option (List (String × TfType) × List (String × Option (List (String × TfType)))) :=
  schema.Block.map (fun root =>
    (attributePairs root.Attributes, root.BlockTypes.map nestedSignature))

/-! ## Sample schema documents -/

/-- A document with one root attribute and one nested block of two attributes. -/
def sampleSchema : Schema :=
  { Version := 1
    Block := some (SchemaBlock.mk 0
      [ { Name := "id", Type_ := TfType.String, Required := true, Description := "An identifier." } ]
      [ SchemaNestedBlock.mk "rule"
          (some (SchemaBlock.mk 0
            [ { Name := "port", Type_ := TfType.Number, Optional := true },
              { Name := "open", Type_ := TfType.Bool, Optional := true, Computed := true } ]
            [] "A rule." StringKind.Plain false))
          SchemaNestedBlockNestingMode.List 0 1 ]
      "" StringKind.Plain false) }

/-- The names and types of `sampleSchema` under other versions, descriptions,
flags, nesting mode and item bounds. -/
def sampleSchemaVariant : Schema :=
  { Version := 7
    Block := some (SchemaBlock.mk 3
      [ { Name := "id", Type_ := TfType.String, Optional := true, Sensitive := true,
          Deprecated := true, DescriptionKind := StringKind.Markdown } ]
      [ SchemaNestedBlock.mk "rule"
          (some (SchemaBlock.mk 2
            [ { Name := "port", Type_ := TfType.Number, Required := true, Description := "A port." },
              { Name := "open", Type_ := TfType.Bool, Required := true } ]
            [] "" StringKind.Markdown true))
          SchemaNestedBlockNestingMode.Set 2 5 ]
      "Another text." StringKind.Markdown true) }

/-! ## Registered schema documents and what they declare -/

/-- A schema document is registered when one of the two registries holds it
under some name. -/
def Registered (S : Schema) : Prop :=
  ∃ name, GoMap.lookup GetProviderResourceSchema name = some S ∨
    GoMap.lookup GetProviderDataSourceSchema name = some S

/-- The names of the attributes of a nested block; empty when its `Block` is
nil. -/
def nestedAttributeNames (b : SchemaNestedBlock) : List String :=
  match b.Block with
  | none => []
  | some blk => blk.Attributes.map (fun a => a.Name)

/-- The attributes of a nested block; empty when its `Block` is nil. -/
def nestedAttributes (b : SchemaNestedBlock) : List SchemaAttribute :=
  match b.Block with
  | none => []
  | some blk => blk.Attributes

/-- The nested blocks that a nested block declares in turn; empty when its
`Block` is nil. -/
def nestedBlockTypes (b : SchemaNestedBlock) : List SchemaNestedBlock :=
  match b.Block with
  | none => []
  | some blk => blk.BlockTypes

/-- The attributes a schema document declares at its root block and inside the
nested blocks of the root block. -/
def declaredAttributes (S : Schema) : List SchemaAttribute :=
  match S.Block with
  | none => []
  | some root => root.Attributes ++ (root.BlockTypes.map nestedAttributes).flatten

/-- The nested blocks of the root block of a schema document; empty when its
`Block` is nil. -/
def declaredBlockTypes (S : Schema) : List SchemaNestedBlock :=
  match S.Block with
  | none => []
  | some root => root.BlockTypes

/-! ## Sequences of writes to a map -/

/-- The value of the last pair of key `k` in a sequence of pairs. -/
def lastWrite {β : Type} : List (String × β) → String → Option β
  | [], _ => none
  | kv :: rest, k =>
    match lastWrite rest k with
    | some v => some v
    | none => if kv.1 = k then some kv.2 else none

/-- The assignments `m[k] = v` for the pairs `(k, v)` of a sequence, in order. -/
def GoMap.insertAll {β : Type} (m : GoMap β) (kvs : List (String × β)) : GoMap β :=
  kvs.foldl (fun acc kv => GoMap.insert acc kv.1 kv.2) m

/-- The pairs that the loop over the nested blocks writes: the `TypeName` of
each nested block that has a `Block`, with the list of object type of the
`(Name, Type)` pairs of its attributes. -/
def blockPairs (bts : List SchemaNestedBlock) : List (String × TfType) :=
  bts.filterMap (fun b => b.Block.map (fun blk =>
    (b.TypeName, TfType.List (TfType.Object (GoMap.ofList (attributePairs blk.Attributes))))))

/-- A schema document of the given root attributes and root nested blocks, its
other fields left at their zero values. -/
def schemaOf (attrs : List SchemaAttribute) (bts : List SchemaNestedBlock) : Schema :=
  { Block := some (SchemaBlock.mk 0 attrs bts "" StringKind.Plain false) }

/-- A nested block of the given type name and attributes, its other fields
left at their zero values. -/
def nestedOf (typeName : String) (attrs : List SchemaAttribute) : SchemaNestedBlock :=
  SchemaNestedBlock.mk typeName (some (SchemaBlock.mk 0 attrs [] "" StringKind.Plain false))
    SchemaNestedBlockNestingMode.Invalid 0 0

/-! ## Sample members with distinct names -/

/-- Two root attributes, `a` and `b`. -/
def sampleAttributes : List SchemaAttribute :=
  [ { Name := "a", Type_ := TfType.String, Required := true },
    { Name := "b", Type_ := TfType.Bool, Optional := true } ]

/-- Two root nested blocks, `r` with the attributes `p` and `q`, and `s` with
the attribute `u`. -/
def sampleBlockTypes : List SchemaNestedBlock :=
  [ nestedOf "r" [ { Name := "p", Type_ := TfType.Number }, { Name := "q", Type_ := TfType.String } ],
    nestedOf "s" [ { Name := "u", Type_ := TfType.Bool } ] ]

/-! ## The schema documents with every pointer nilable

The Go fields `Attributes` and `BlockTypes` are slices of pointers,
`[]*SchemaAttribute` and `[]*SchemaNestedBlock`, and the argument of
`GetObjectTypeFromSchema` is a pointer: any of them can be nil, and the function
panics when it dereferences one. The declarations `Nilable.*` embed the Go
types with every pointer an `Option`, and the function on all of them. The
declarations above are the same function on the documents none of whose slices
holds a nil element (`nilable_projection_lift`). -/

mutual
/-- A `tfprotov5.SchemaBlock` whose slices may hold nil pointers. -/
inductive Nilable.SchemaBlock where
  | mk (Version : Int) (Attributes : List (Option SchemaAttribute))
      (BlockTypes : List (Option Nilable.SchemaNestedBlock)) (Description : String)
      (DescriptionKind : StringKind) (Deprecated : Bool)
/-- A `tfprotov5.SchemaNestedBlock` whose `Block` may be nil and may hold nil
pointers. -/
inductive Nilable.SchemaNestedBlock where
  | mk (TypeName : String) (Block : Option Nilable.SchemaBlock)
      (Nesting : SchemaNestedBlockNestingMode) (MinItems : Int) (MaxItems : Int)
end

/-- The field `Attributes` of a block; `none` is a nil element. -/
def Nilable.SchemaBlock.Attributes : Nilable.SchemaBlock → List (Option SchemaAttribute)
  | .mk _ attrs _ _ _ _ => attrs

/-- The field `BlockTypes` of a block; `none` is a nil element. -/
def Nilable.SchemaBlock.BlockTypes :
    Nilable.SchemaBlock → List (Option Nilable.SchemaNestedBlock)
  | .mk _ _ bts _ _ _ => bts

/-- The field `TypeName` of a nested block. -/
def Nilable.SchemaNestedBlock.TypeName : Nilable.SchemaNestedBlock → String
  | .mk n _ _ _ _ => n

/-- The field `Block` of a nested block; `none` is the nil pointer. -/
def Nilable.SchemaNestedBlock.Block : Nilable.SchemaNestedBlock → Option Nilable.SchemaBlock
  | .mk _ b _ _ _ => b

/-- A `tfprotov5.Schema`; `Block` is a pointer, `none` when nil. -/
structure Nilable.Schema where
  Version : Int := 0
  Block : Option Nilable.SchemaBlock := none

/-- The loop `for _, att := range attrs { m[att.Name] = att.Type }`, run on the
map `m`; it panics (`none`) at `att.Name` when `att` is nil. -/
def Nilable.addAttributes (m : GoMap TfType) :
    List (Option SchemaAttribute) → Option (GoMap TfType)
  | [] => some m
  | none :: _ => none
  | some att :: rest => Nilable.addAttributes (GoMap.insert m att.Name att.Type_) rest

/-- One iteration of the loop over `schema.Block.BlockTypes`. It panics (`none`)
when `b` is nil, when `b.Block` is nil and when an attribute of `b.Block` is
nil. -/
def Nilable.addBlockType (bm : GoMap TfType) (b : Option Nilable.SchemaNestedBlock) :
    Option (GoMap TfType) :=
  match b with
  | none => none
  | some nb =>
    match nb.Block with
    | none => none
    | some blk =>
      match Nilable.addAttributes GoMap.empty blk.Attributes with
      | none => none
      | some attrs => some (GoMap.insert bm nb.TypeName (TfType.List (TfType.Object attrs)))

/-- The loop `for _, b := range schema.Block.BlockTypes`, run on the map `bm`. -/
def Nilable.addBlockTypes (bm : GoMap TfType) :
    List (Option Nilable.SchemaNestedBlock) → Option (GoMap TfType)
  | [] => some bm
  | b :: rest =>
    match Nilable.addBlockType bm b with
    | none => none
    | some bm' => Nilable.addBlockTypes bm' rest

/-- The function `GetObjectTypeFromSchema` on every value of its argument
type: `none` when a nil pointer is dereferenced, be it `schema`,
`schema.Block`, an element of a slice or the `Block` of a nested block. -/
def Nilable.GetObjectTypeFromSchema (schema : Option Nilable.Schema) : Option TfType :=
  match schema with
  | none => none
  | some s =>
    match s.Block with
    | none => none
    | some root =>
      match Nilable.addAttributes GoMap.empty root.Attributes with
      | none => none
      | some bm =>
        match Nilable.addBlockTypes bm root.BlockTypes with
        | none => none
        | some bm' => some (TfType.Object bm')

/-- The elements of a slice of pointers that are not nil, in order. -/
def Nilable.nonNil {α : Type} : List (Option α) → List α
  | [] => []
  | none :: rest => Nilable.nonNil rest
  | some a :: rest => a :: Nilable.nonNil rest

/-- A nested-block pointer that the loop reads without a panic: it is not nil,
its `Block` is not nil and no attribute of its `Block` is nil. -/
def Nilable.NestedReadable (b : Option Nilable.SchemaNestedBlock) : Prop :=
  match b with
  | none => False
  | some nb =>
    match nb.Block with
    | none => False
    | some blk => ∀ x ∈ blk.Attributes, x ≠ none

/-- Whether a nested-block pointer is readable can be decided. -/
instance Nilable.decNestedReadable (b : Option Nilable.SchemaNestedBlock) :
    Decidable (Nilable.NestedReadable b) :=
  match b with
  | none => isFalse (fun h => h)
  | some nb =>
    match hb : nb.Block with
    | none => isFalse (fun h => by simp [Nilable.NestedReadable, hb] at h)
    | some blk =>
      if h : ∀ x ∈ blk.Attributes, x ≠ none then
        isTrue (by simpa [Nilable.NestedReadable, hb] using h)
      else
        isFalse (fun h' => h (by simpa [Nilable.NestedReadable, hb] using h'))

/-- The pair that the loop writes for a nested-block pointer: its `TypeName`
with the list of object type of the `(Name, Type)` pairs of its attributes;
`none` when the pointer or its `Block` is nil. -/
def Nilable.blockPair (b : Option Nilable.SchemaNestedBlock) : Option (String × TfType) :=
  match b with
  | none => none
  | some nb =>
    match nb.Block with
    | none => none
    | some blk =>
      some (nb.TypeName, TfType.List (TfType.Object
        (GoMap.ofList (attributePairs (Nilable.nonNil blk.Attributes)))))

/-- The pairs that the loop over the nested blocks writes, in order. -/
def Nilable.blockPairs (bts : List (Option Nilable.SchemaNestedBlock)) :
    List (String × TfType) :=
  bts.filterMap Nilable.blockPair

/-- The writes of the whole function for a root block: the `(Name, Type)`
pairs of the root attributes, then the pairs of the root nested blocks. -/
def Nilable.writes (root : Nilable.SchemaBlock) : List (String × TfType) :=
  attributePairs (Nilable.nonNil root.Attributes) ++ Nilable.blockPairs root.BlockTypes

mutual
/-- A block without nil elements, as a block of the nilable type. -/
def Nilable.liftBlock : provider.SchemaBlock → Nilable.SchemaBlock
  | .mk v attrs bts d dk dep => .mk v (attrs.map some) (Nilable.liftBlockTypes bts) d dk dep
/-- A slice of nested blocks without nil elements, as a slice of pointers. -/
def Nilable.liftBlockTypes :
    List provider.SchemaNestedBlock → List (Option Nilable.SchemaNestedBlock)
  | [] => []
  | b :: rest => some (Nilable.liftNestedBlock b) :: Nilable.liftBlockTypes rest
/-- A nested block without nil elements, as a nested block of the nilable
type. -/
def Nilable.liftNestedBlock : provider.SchemaNestedBlock → Nilable.SchemaNestedBlock
  | .mk tn blk n lo hi => .mk tn (Nilable.liftBlockPointer blk) n lo hi
/-- A `Block` pointer, nil or not, as a pointer to a block of the nilable
type. -/
def Nilable.liftBlockPointer : Option provider.SchemaBlock → Option Nilable.SchemaBlock
  | none => none
  | some b => some (Nilable.liftBlock b)
end

/-- A schema document without nil elements, as a document of the nilable
type. -/
def Nilable.liftSchema (S : provider.Schema) : Nilable.Schema :=
  { Version := S.Version, Block := Nilable.liftBlockPointer S.Block }

/-- A document of the given root attributes and root nested blocks, its other
fields left at their zero values. -/
def Nilable.document (attrs : List (Option SchemaAttribute))
    (bts : List (Option Nilable.SchemaNestedBlock)) : Nilable.Schema :=
  { Block := some (Nilable.SchemaBlock.mk 0 attrs bts "" StringKind.Plain false) }

/-- A pointer to a nested block of the given type name and attributes, its
other fields left at their zero values. -/
def Nilable.nested (typeName : String) (attrs : List (Option SchemaAttribute)) :
    Option Nilable.SchemaNestedBlock :=
  some (Nilable.SchemaNestedBlock.mk typeName
    (some (Nilable.SchemaBlock.mk 0 attrs [] "" StringKind.Plain false))
    SchemaNestedBlockNestingMode.Invalid 0 0)

/-- A pointer to a nested block of the given type name whose `Block` is nil. -/
def Nilable.nestedNilBlock (typeName : String) : Option Nilable.SchemaNestedBlock :=
  some (Nilable.SchemaNestedBlock.mk typeName none SchemaNestedBlockNestingMode.Invalid 0 0)

/-! ## The order on keys -/

theorem ltCodes_irrefl (a : List Nat) : ltCodes a a = false := by
  induction a with
  | nil => rfl
  | cons x xs ih => simp [ltCodes, ih]

theorem ltCodes_trans : ∀ (a b c : List Nat),
    ltCodes a b = true → ltCodes b c = true → ltCodes a c = true
  | [], [], _, h, _ => by simp [ltCodes] at h
  | [], _ :: _, [], _, h => by simp [ltCodes] at h
  | [], _ :: _, _ :: _, _, _ => by simp [ltCodes]
  | _ :: _, [], _, h, _ => by simp [ltCodes] at h
  | _ :: _, _ :: _, [], _, h => by simp [ltCodes] at h
  | x :: xs, y :: ys, z :: zs, h1, h2 => by
    simp only [ltCodes, Bool.or_eq_true, Bool.and_eq_true, decide_eq_true_eq] at h1 h2 ⊢
    rcases h1 with h1 | ⟨e1, h1⟩
    · rcases h2 with h2 | ⟨e2, _⟩
      · exact Or.inl (by omega)
      · exact Or.inl (by omega)
    · rcases h2 with h2 | ⟨e2, h2⟩
      · exact Or.inl (by omega)
      · exact Or.inr ⟨by omega, ltCodes_trans xs ys zs h1 h2⟩

theorem ltCodes_total : ∀ (a b : List Nat),
    ltCodes a b = false → a ≠ b → ltCodes b a = true
  | [], [], _, h => absurd rfl h
  | [], _ :: _, h, _ => by simp [ltCodes] at h
  | _ :: _, [], _, _ => by simp [ltCodes]
  | x :: xs, y :: ys, h, hne => by
    simp only [ltCodes, Bool.or_eq_false_iff, Bool.and_eq_false_iff, decide_eq_false_iff_not,
      Bool.or_eq_true, Bool.and_eq_true, decide_eq_true_eq] at h ⊢
    obtain ⟨h1, h2⟩ := h
    by_cases hxy : x = y
    · subst hxy
      right
      refine ⟨rfl, ltCodes_total xs ys ?_ ?_⟩
      · rcases h2 with h2 | h2
        · exact absurd rfl h2
        · exact h2
      · intro e
        exact hne (by rw [e])
    · left
      omega

theorem codes_injective (a b : String)
    (h : a.data.map Char.toNat = b.data.map Char.toNat) : a = b := by
  have hc : ∀ (x y : List Char), x.map Char.toNat = y.map Char.toNat → x = y := by
    intro x
    induction x with
    | nil =>
      intro y hy
      cases y with
      | nil => rfl
      | cons _ _ => simp at hy
    | cons c cs ih =>
      intro y hy
      cases y with
      | nil => simp at hy
      | cons d ds =>
        simp only [List.map_cons, List.cons.injEq] at hy
        have hcd : c = d := by
          have := congrArg Char.ofNat hy.1
          simpa using this
        rw [hcd, ih ds hy.2]
  have := hc a.data b.data h
  exact String.ext this

theorem keyLt_irrefl (a : String) : keyLt a a = false :=
  ltCodes_irrefl _

theorem keyLt_trans {a b c : String} (h1 : keyLt a b = true) (h2 : keyLt b c = true) :
    keyLt a c = true :=
  ltCodes_trans _ _ _ h1 h2

theorem keyLt_total {a b : String} (h : keyLt a b = false) (hne : a ≠ b) :
    keyLt b a = true :=
  ltCodes_total _ _ h (fun e => hne (codes_injective a b e))

/-! ## Assignment and lookup in a Go map -/

theorem GoMap.mem_keys_insert {β : Type} (m : GoMap β) (k : String) (v : β) (x : String) :
    x ∈ GoMap.keys (GoMap.insert m k v) ↔ x = k ∨ x ∈ GoMap.keys m := by
  induction m with
  | nil => simp [GoMap.insert, GoMap.keys]
  | cons hd tl ih =>
    obtain ⟨k', v'⟩ := hd
    simp only [GoMap.keys] at ih
    simp only [GoMap.insert]
    split_ifs with h1 h2
    · simp [GoMap.keys]
    · subst h2
      simp [GoMap.keys]
    · simp only [GoMap.keys, List.map_cons, List.mem_cons, ih]
      tauto

theorem GoMap.lookup_insert_self {β : Type} (m : GoMap β) (k : String) (v : β) :
    GoMap.lookup (GoMap.insert m k v) k = some v := by
  induction m with
  | nil => simp [GoMap.insert, GoMap.lookup]
  | cons hd tl ih =>
    obtain ⟨k', v'⟩ := hd
    simp only [GoMap.insert]
    split_ifs with h1 h2
    · simp [GoMap.lookup]
    · simp [GoMap.lookup]
    · simp [GoMap.lookup, h2, ih]

theorem GoMap.lookup_insert_of_ne {β : Type} (m : GoMap β) (k : String) (v : β) (x : String)
    (hx : x ≠ k) : GoMap.lookup (GoMap.insert m k v) x = GoMap.lookup m x := by
  induction m with
  | nil => simp [GoMap.insert, GoMap.lookup, hx]
  | cons hd tl ih =>
    obtain ⟨k', v'⟩ := hd
    simp only [GoMap.insert]
    split_ifs with h1 h2
    · simp [GoMap.lookup, hx]
    · subst h2
      simp [GoMap.lookup, hx]
    · simp [GoMap.lookup, ih]

theorem GoMap.lookup_eq_none_iff {β : Type} (m : GoMap β) (x : String) :
    GoMap.lookup m x = none ↔ x ∉ GoMap.keys m := by
  induction m with
  | nil => simp [GoMap.lookup, GoMap.keys]
  | cons hd tl ih =>
    obtain ⟨k', v'⟩ := hd
    simp only [GoMap.keys] at ih
    simp only [GoMap.lookup, GoMap.keys, List.map_cons, List.mem_cons, not_or]
    split_ifs with h
    · simp [h]
    · simp [h, ih]

theorem GoMap.sorted_empty {β : Type} : GoMap.Sorted (GoMap.empty : GoMap β) :=
  List.Pairwise.nil

theorem GoMap.sorted_insert {β : Type} (m : GoMap β) (k : String) (v : β)
    (hm : GoMap.Sorted m) : GoMap.Sorted (GoMap.insert m k v) := by
  induction m with
  | nil => simp [GoMap.insert, GoMap.Sorted]
  | cons hd tl ih =>
    obtain ⟨k', v'⟩ := hd
    unfold GoMap.Sorted at hm ih ⊢
    rw [List.pairwise_cons] at hm
    obtain ⟨hhd, htl⟩ := hm
    simp only [GoMap.insert]
    split_ifs with h1 h2
    · refine List.Pairwise.cons ?_ (List.Pairwise.cons hhd htl)
      intro p hp
      rcases List.mem_cons.1 hp with rfl | hp
      · exact h1
      · exact keyLt_trans h1 (hhd p hp)
    · subst h2
      exact List.Pairwise.cons hhd htl
    · refine List.Pairwise.cons ?_ (ih htl)
      intro p hp
      have hk : p.1 ∈ GoMap.keys (GoMap.insert tl k v) := List.mem_map_of_mem Prod.fst hp
      rcases (GoMap.mem_keys_insert tl k v p.1).1 hk with e | hmem
      · rw [e]
        exact keyLt_total (by simpa using h1) h2
      · obtain ⟨q, hq, hqe⟩ := List.mem_map.1 hmem
        rw [← hqe]
        exact hhd q hq

theorem GoMap.nodup_keys_of_sorted {β : Type} (m : GoMap β) (hm : GoMap.Sorted m) :
    (GoMap.keys m).Nodup := by
  unfold GoMap.Sorted at hm
  unfold GoMap.keys List.Nodup
  rw [List.pairwise_map]
  refine hm.imp ?_
  intro a b hab e
  rw [e, keyLt_irrefl] at hab
  exact Bool.false_ne_true hab

/-! ## The two loops of the projection -/

theorem addAttributes_nil (m : GoMap TfType) : addAttributes m [] = m := rfl

theorem addAttributes_cons (m : GoMap TfType) (a : SchemaAttribute)
    (rest : List SchemaAttribute) :
    addAttributes m (a :: rest) = addAttributes (GoMap.insert m a.Name a.Type_) rest := rfl

theorem addAttributes_append (m : GoMap TfType) (pre post : List SchemaAttribute) :
    addAttributes m (pre ++ post) = addAttributes (addAttributes m pre) post := by
  simp [addAttributes, List.foldl_append]

theorem addAttributes_eq_ofList (attrs : List SchemaAttribute) :
    addAttributes GoMap.empty attrs = GoMap.ofList (attributePairs attrs) := by
  simp [addAttributes, GoMap.ofList, attributePairs, List.foldl_map]

theorem mem_keys_addAttributes (attrs : List SchemaAttribute) (m : GoMap TfType) (x : String) :
    x ∈ GoMap.keys (addAttributes m attrs) ↔
      x ∈ GoMap.keys m ∨ x ∈ attrs.map (fun a => a.Name) := by
  induction attrs generalizing m with
  | nil => simp [addAttributes_nil]
  | cons a rest ih =>
    rw [addAttributes_cons, ih, GoMap.mem_keys_insert]
    simp only [List.map_cons, List.mem_cons]
    tauto

theorem lookup_addAttributes_of_not_mem (attrs : List SchemaAttribute) (m : GoMap TfType)
    (x : String) (hx : ∀ a ∈ attrs, a.Name ≠ x) :
    GoMap.lookup (addAttributes m attrs) x = GoMap.lookup m x := by
  induction attrs generalizing m with
  | nil => rfl
  | cons a rest ih =>
    rw [addAttributes_cons, ih _ (fun b hb => hx b (List.mem_cons_of_mem a hb))]
    exact GoMap.lookup_insert_of_ne m a.Name a.Type_ x
      (fun e => hx a (List.mem_cons_self a rest) e.symm)

theorem lookup_addAttributes_last (m : GoMap TfType) (pre post : List SchemaAttribute)
    (a : SchemaAttribute) (hpost : ∀ b ∈ post, b.Name ≠ a.Name) :
    GoMap.lookup (addAttributes m (pre ++ a :: post)) a.Name = some a.Type_ := by
  rw [addAttributes_append, addAttributes_cons, lookup_addAttributes_of_not_mem post _ _ hpost]
  exact GoMap.lookup_insert_self _ _ _

theorem sorted_addAttributes (attrs : List SchemaAttribute) (m : GoMap TfType)
    (hm : GoMap.Sorted m) : GoMap.Sorted (addAttributes m attrs) := by
  induction attrs generalizing m with
  | nil => exact hm
  | cons a rest ih =>
    rw [addAttributes_cons]
    exact ih _ (GoMap.sorted_insert m a.Name a.Type_ hm)

theorem addBlockType_some (bm : GoMap TfType) (b : SchemaNestedBlock) (blk : SchemaBlock)
    (hb : b.Block = some blk) :
    addBlockType bm b = some (GoMap.insert bm b.TypeName (nestedType blk)) := by
  simp [addBlockType, hb, nestedType]

theorem addBlockType_none (bm : GoMap TfType) (b : SchemaNestedBlock)
    (hb : b.Block = none) : addBlockType bm b = none := by
  simp [addBlockType, hb]

theorem addBlockTypes_cons_some (bm : GoMap TfType) (b : SchemaNestedBlock)
    (rest : List SchemaNestedBlock) (blk : SchemaBlock) (hb : b.Block = some blk) :
    addBlockTypes bm (b :: rest) =
      addBlockTypes (GoMap.insert bm b.TypeName (nestedType blk)) rest := by
  simp [addBlockTypes, addBlockType_some bm b blk hb]

theorem addBlockTypes_isSome (bts : List SchemaNestedBlock) (bm : GoMap TfType)
    (h : ∀ b ∈ bts, b.Block ≠ none) : ∃ m, addBlockTypes bm bts = some m := by
  induction bts generalizing bm with
  | nil => exact ⟨bm, rfl⟩
  | cons b rest ih =>
    obtain ⟨blk, hblk⟩ := Option.ne_none_iff_exists'.1 (h b (List.mem_cons_self b rest))
    rw [addBlockTypes_cons_some bm b rest blk hblk]
    exact ih _ (fun c hc => h c (List.mem_cons_of_mem b hc))

theorem addBlockTypes_blocks_present (bts : List SchemaNestedBlock) (bm m : GoMap TfType)
    (h : addBlockTypes bm bts = some m) : ∀ b ∈ bts, b.Block ≠ none := by
  induction bts generalizing bm with
  | nil => simp
  | cons b rest ih =>
    intro c hc
    cases hb : b.Block with
    | none => simp [addBlockTypes, addBlockType_none bm b hb] at h
    | some blk =>
      rw [addBlockTypes_cons_some bm b rest blk hb] at h
      rcases List.mem_cons.1 hc with rfl | hc
      · simp [hb]
      · exact ih _ h c hc

theorem mem_keys_addBlockTypes (bts : List SchemaNestedBlock) (bm m : GoMap TfType)
    (h : addBlockTypes bm bts = some m) (x : String) :
    x ∈ GoMap.keys m ↔ x ∈ GoMap.keys bm ∨ x ∈ bts.map (fun b => b.TypeName) := by
  induction bts generalizing bm with
  | nil =>
    simp only [addBlockTypes, Option.some.injEq] at h
    simp [h]
  | cons b rest ih =>
    cases hb : b.Block with
    | none => simp [addBlockTypes, addBlockType_none bm b hb] at h
    | some blk =>
      rw [addBlockTypes_cons_some bm b rest blk hb] at h
      rw [ih _ h, GoMap.mem_keys_insert]
      simp only [List.map_cons, List.mem_cons]
      tauto

theorem lookup_addBlockTypes_of_not_mem (bts : List SchemaNestedBlock) (bm m : GoMap TfType)
    (h : addBlockTypes bm bts = some m) (x : String) (hx : ∀ b ∈ bts, b.TypeName ≠ x) :
    GoMap.lookup m x = GoMap.lookup bm x := by
  induction bts generalizing bm with
  | nil =>
    simp only [addBlockTypes, Option.some.injEq] at h
    rw [h]
  | cons b rest ih =>
    cases hb : b.Block with
    | none => simp [addBlockTypes, addBlockType_none bm b hb] at h
    | some blk =>
      rw [addBlockTypes_cons_some bm b rest blk hb] at h
      rw [ih _ h (fun c hc => hx c (List.mem_cons_of_mem b hc))]
      exact GoMap.lookup_insert_of_ne bm _ _ x
        (fun e => hx b (List.mem_cons_self b rest) e.symm)

theorem addBlockTypes_append (pre post : List SchemaNestedBlock) (bm : GoMap TfType) :
    addBlockTypes bm (pre ++ post) =
      (addBlockTypes bm pre).bind (fun m => addBlockTypes m post) := by
  induction pre generalizing bm with
  | nil => rfl
  | cons b rest ih =>
    cases hb : b.Block with
    | none => simp [addBlockTypes, addBlockType_none bm b hb]
    | some blk =>
      rw [List.cons_append, addBlockTypes_cons_some bm b _ blk hb,
        addBlockTypes_cons_some bm b rest blk hb, ih]

theorem lookup_addBlockTypes_last (pre post : List SchemaNestedBlock) (b : SchemaNestedBlock)
    (blk : SchemaBlock) (hb : b.Block = some blk) (bm m : GoMap TfType)
    (h : addBlockTypes bm (pre ++ b :: post) = some m)
    (hpost : ∀ c ∈ post, c.TypeName ≠ b.TypeName) :
    GoMap.lookup m b.TypeName = some (nestedType blk) := by
  rw [addBlockTypes_append] at h
  cases hpre : addBlockTypes bm pre with
  | none => simp [hpre] at h
  | some m1 =>
    rw [hpre, Option.some_bind, addBlockTypes_cons_some m1 b post blk hb] at h
    rw [lookup_addBlockTypes_of_not_mem post _ m h _ hpost]
    exact GoMap.lookup_insert_self _ _ _

theorem sorted_addBlockTypes (bts : List SchemaNestedBlock) (bm m : GoMap TfType)
    (h : addBlockTypes bm bts = some m) (hbm : GoMap.Sorted bm) : GoMap.Sorted m := by
  induction bts generalizing bm with
  | nil =>
    simp only [addBlockTypes, Option.some.injEq] at h
    rw [← h]
    exact hbm
  | cons b rest ih =>
    cases hb : b.Block with
    | none => simp [addBlockTypes, addBlockType_none bm b hb] at h
    | some blk =>
      rw [addBlockTypes_cons_some bm b rest blk hb] at h
      exact ih _ h (GoMap.sorted_insert bm _ _ hbm)

/-! ## The registries and the lookups -/

theorem keys_resource_registry :
    GoMap.keys GetProviderResourceSchema = ["kubernetes_manifest"] := rfl

theorem keys_data_source_registry :
    GoMap.keys GetProviderDataSourceSchema = ["kubernetes_resource"] := rfl

theorem lookup_resource_registry :
    GoMap.lookup GetProviderResourceSchema "kubernetes_manifest" =
      some kubernetesManifestSchema := rfl

theorem lookup_data_source_registry :
    GoMap.lookup GetProviderDataSourceSchema "kubernetes_resource" =
      some kubernetesResourceSchema := rfl

theorem projection_returns (S : Schema) (root : SchemaBlock) (hroot : S.Block = some root)
    (hnb : ∀ b ∈ root.BlockTypes, b.Block ≠ none) :
    ∃ m, addBlockTypes (addAttributes GoMap.empty root.Attributes) root.BlockTypes = some m ∧
      GetObjectTypeFromSchema S = some (TfType.Object m) := by
  obtain ⟨m, hm⟩ := addBlockTypes_isSome root.BlockTypes
    (addAttributes GoMap.empty root.Attributes) hnb
  exact ⟨m, hm, by simp [GetObjectTypeFromSchema, hroot, hm]⟩

/-! ## The claims -/

theorem getResourceType_of_not_mem (name : String)
    (h : name ∉ GoMap.keys GetProviderResourceSchema) :
    GetResourceType name =
      some (TfType.DynamicPseudoType,
        some ("unknown resource " ++ name ++ " - cannot find schema")) := by
  have hl := (GoMap.lookup_eq_none_iff GetProviderResourceSchema name).2 h
  simp [GetResourceType, hl]

theorem getDataSourceType_of_not_mem (wide : Char → Bool) (name : String)
    (h : name ∉ GoMap.keys GetProviderDataSourceSchema) :
    GetDataSourceType wide name =
      some (TfType.DynamicPseudoType,
        some ("unknown data source " ++ Quote wide name ++ ": cannot find schema")) := by
  have hl := (GoMap.lookup_eq_none_iff GetProviderDataSourceSchema name).2 h
  simp [GetDataSourceType, hl]

/-- C4: for every name that is not a key of the resource registry,
`GetResourceType` returns the dynamic type together with a non-nil error whose
message is `unknown resource `, the name, ` - cannot find schema`. -/
theorem resource_lookup_miss (name : String)
    (h : name ∉ GoMap.keys GetProviderResourceSchema) :
    GetResourceType name =
      some (TfType.DynamicPseudoType,
        some ("unknown resource " ++ name ++ " - cannot find schema")) :=
  getResourceType_of_not_mem name h

/-- C4, at the names `nope` and `kubernetes_resource`: neither is a key of the
resource registry, and the messages are `unknown resource nope - cannot find
schema` and `unknown resource kubernetes_resource - cannot find schema`. -/
theorem resource_lookup_miss_witness :
    ("nope" ∉ GoMap.keys GetProviderResourceSchema ∧
      GetResourceType "nope" =
        some (TfType.DynamicPseudoType, some "unknown resource nope - cannot find schema")) ∧
    ("kubernetes_resource" ∉ GoMap.keys GetProviderResourceSchema ∧
      GetResourceType "kubernetes_resource" =
        some (TfType.DynamicPseudoType,
          some "unknown resource kubernetes_resource - cannot find schema")) :=
  ⟨⟨by decide, resource_lookup_miss "nope" (by decide)⟩,
   ⟨by decide, resource_lookup_miss "kubernetes_resource" (by decide)⟩⟩

theorem foldl_appendEscapedRune_verbatim (wide : Char → Bool) (cs : List Char)
    (buf : List Char)
    (h : ∀ c ∈ cs, IsPrint wide c = true ∧ c ≠ dquote ∧ c ≠ backslash) :
    cs.foldl (appendEscapedRune wide) buf = buf ++ cs := by
  induction cs generalizing buf with
  | nil => simp
  | cons c rest ih =>
    obtain ⟨hp, hq, hb⟩ := h c (List.mem_cons_self c rest)
    have hstep : appendEscapedRune wide buf c = buf ++ [c] := by
      simp [appendEscapedRune, hp, hq, hb]
    rw [List.foldl_cons, hstep, ih _ (fun d hd => h d (List.mem_cons_of_mem c hd))]
    simp

theorem quote_verbatim (wide : Char → Bool) (name : String)
    (h : ∀ c ∈ name.data, IsPrint wide c = true ∧ c ≠ dquote ∧ c ≠ backslash) :
    Quote wide name = "\"" ++ name ++ "\"" := by
  unfold Quote
  rw [foldl_appendEscapedRune_verbatim wide name.data [dquote] h]
  apply String.ext
  simp only [String.data_append]
  rfl

/-- C5, as stated, fails: the name made of one double quote is not a key of the
data-source registry, and the message holds the name escaped, a backslash
before the double quote, not the name as it is. -/
theorem data_source_lookup_miss_counterexample :
    "\"" ∉ GoMap.keys GetProviderDataSourceSchema ∧
    (∀ wide : Char → Bool, GetDataSourceType wide "\"" =
      some (TfType.DynamicPseudoType,
        some "unknown data source \"\\\"\": cannot find schema")) ∧
    "unknown data source \"\\\"\": cannot find schema" ≠
      "unknown data source \"" ++ "\"" ++ "\": cannot find schema" :=
  ⟨by decide, fun _ => rfl, by decide⟩

/-- C5, amended: for every name that is not a key of the data-source registry,
`GetDataSourceType` returns the dynamic type together with a non-nil error
whose message is `unknown data source `, the name quoted as the verb `%q`
quotes it, `: cannot find schema`; the quoted name is the name as it is between
two double quotes when each of its characters is printable and is neither the
double quote nor the backslash. -/
theorem data_source_lookup_miss (wide : Char → Bool) (name : String)
    (h : name ∉ GoMap.keys GetProviderDataSourceSchema) :
    GetDataSourceType wide name =
      some (TfType.DynamicPseudoType,
        some ("unknown data source " ++ Quote wide name ++ ": cannot find schema")) ∧
    ((∀ c ∈ name.data, IsPrint wide c = true ∧ c ≠ dquote ∧ c ≠ backslash) →
      GetDataSourceType wide name =
        some (TfType.DynamicPseudoType,
          some ("unknown data source \"" ++ name ++ "\": cannot find schema"))) := by
  have h1 := getDataSourceType_of_not_mem wide name h
  refine ⟨h1, fun hc => ?_⟩
  rw [h1, quote_verbatim wide name hc]
  have e : "unknown data source " ++ ("\"" ++ name ++ "\"") ++ ": cannot find schema" =
      "unknown data source \"" ++ name ++ "\": cannot find schema" := by
    apply String.ext
    simp [String.data_append]
  rw [e]

/-- C5, amended, at the names `nope` and `kubernetes_manifest`: neither is a
key of the data-source registry, and the messages are `unknown data source
"nope": cannot find schema` and `unknown data source "kubernetes_manifest":
cannot find schema`. -/
theorem data_source_lookup_miss_witness :
    ("nope" ∉ GoMap.keys GetProviderDataSourceSchema ∧
      GetDataSourceType (fun _ => false) "nope" =
        some (TfType.DynamicPseudoType,
          some "unknown data source \"nope\": cannot find schema")) ∧
    ("kubernetes_manifest" ∉ GoMap.keys GetProviderDataSourceSchema ∧
      GetDataSourceType (fun _ => false) "kubernetes_manifest" =
        some (TfType.DynamicPseudoType,
          some "unknown data source \"kubernetes_manifest\": cannot find schema")) :=
  ⟨⟨by decide, (data_source_lookup_miss (fun _ => false) "nope" (by decide)).2 (by decide)⟩,
   ⟨by decide,
    (data_source_lookup_miss (fun _ => false) "kubernetes_manifest" (by decide)).2 (by decide)⟩⟩

theorem mem_keys_resource_registry (name : String) :
    name ∈ GoMap.keys GetProviderResourceSchema ↔ name = "kubernetes_manifest" := by
  rw [keys_resource_registry]
  simp

theorem mem_keys_data_source_registry (name : String) :
    name ∈ GoMap.keys GetProviderDataSourceSchema ↔ name = "kubernetes_resource" := by
  rw [keys_data_source_registry]
  simp

/-- C6: `GetResourceType` at `kubernetes_manifest` and `GetDataSourceType` at
`kubernetes_resource` return a nil error and the type that
`GetObjectTypeFromSchema` returns for the entry of the registry; and each
helper returns a nil error exactly when the name is a key of its registry. -/
theorem lookup_hits :
    (∃ S t, GoMap.lookup GetProviderResourceSchema "kubernetes_manifest" = some S ∧
      GetObjectTypeFromSchema S = some t ∧
      GetResourceType "kubernetes_manifest" = some (t, none)) ∧
    (∀ wide : Char → Bool, ∃ S t,
      GoMap.lookup GetProviderDataSourceSchema "kubernetes_resource" = some S ∧
      GetObjectTypeFromSchema S = some t ∧
      GetDataSourceType wide "kubernetes_resource" = some (t, none)) ∧
    (∀ name : String, (∃ t, GetResourceType name = some (t, none)) ↔
      name ∈ GoMap.keys GetProviderResourceSchema) ∧
    (∀ (wide : Char → Bool) (name : String),
      (∃ t, GetDataSourceType wide name = some (t, none)) ↔
        name ∈ GoMap.keys GetProviderDataSourceSchema) := by
  refine ⟨⟨kubernetesManifestSchema, _, rfl, rfl, rfl⟩,
    fun _ => ⟨kubernetesResourceSchema, _, rfl, rfl, rfl⟩, ?_, ?_⟩
  · intro name
    constructor
    · rintro ⟨t, ht⟩
      by_contra hk
      rw [getResourceType_of_not_mem name hk] at ht
      simp at ht
    · intro hk
      rw [(mem_keys_resource_registry name).1 hk]
      exact ⟨_, rfl⟩
  · intro wide name
    constructor
    · rintro ⟨t, ht⟩
      by_contra hk
      rw [getDataSourceType_of_not_mem wide name hk] at ht
      simp at ht
    · intro hk
      rw [(mem_keys_data_source_registry name).1 hk]
      exact ⟨_, rfl⟩

/-- C7: `GetResourceType` at `kubernetes_manifest` returns, with a nil error,
the object type whose fields are exactly `manifest`, `object`, `wait_for`,
`computed_fields`, `timeouts` and `field_manager`, of the types dynamic,
dynamic, object of `fields` a map of string, list of string, list of object
of `create`, `update`, `delete` strings, and list of object of `name` a string
and `force_conflicts` a bool. -/
theorem resource_type_kubernetes_manifest :
    ∃ t, GetResourceType "kubernetes_manifest" = some (t, none) ∧
      t = TfType.Object (GoMap.ofList
        [ ("manifest", TfType.DynamicPseudoType),
          ("object", TfType.DynamicPseudoType),
          ("wait_for", TfType.Object (GoMap.ofList [("fields", TfType.Map TfType.String)])),
          ("computed_fields", TfType.List TfType.String),
          ("timeouts", TfType.List (TfType.Object (GoMap.ofList
            [("create", TfType.String), ("update", TfType.String),
              ("delete", TfType.String)]))),
          ("field_manager", TfType.List (TfType.Object (GoMap.ofList
            [("name", TfType.String), ("force_conflicts", TfType.Bool)]))) ]) ∧
      (fieldNames t).Nodup ∧
      (∀ k, k ∈ fieldNames t ↔
        k ∈ ["manifest", "object", "wait_for", "computed_fields", "timeouts",
          "field_manager"]) ∧
      attributeType t "manifest" = some TfType.DynamicPseudoType ∧
      attributeType t "object" = some TfType.DynamicPseudoType ∧
      attributeType t "wait_for" =
        some (TfType.Object (GoMap.ofList [("fields", TfType.Map TfType.String)])) ∧
      attributeType t "computed_fields" = some (TfType.List TfType.String) ∧
      attributeType t "timeouts" =
        some (TfType.List (TfType.Object (GoMap.ofList
          [("create", TfType.String), ("update", TfType.String),
            ("delete", TfType.String)]))) ∧
      attributeType t "field_manager" =
        some (TfType.List (TfType.Object (GoMap.ofList
          [("name", TfType.String), ("force_conflicts", TfType.Bool)]))) := by
  refine ⟨_, rfl, rfl, ?_, ?_, rfl, rfl, rfl, rfl, rfl, rfl⟩
  · show List.Nodup ["computed_fields", "field_manager", "manifest", "object", "timeouts",
      "wait_for"]
    decide
  · intro k
    show k ∈ ["computed_fields", "field_manager", "manifest", "object", "timeouts",
      "wait_for"] ↔ _
    simp only [List.mem_cons, List.mem_singleton, List.not_mem_nil, or_false]
    tauto

/-- C8: `GetDataSourceType` at `kubernetes_resource` returns, with a nil error,
the object type whose fields are exactly `api_version`, `kind`, `object`,
`wait_for` and `metadata`, of the types string, string, dynamic, object of
`fields` a map of string, and list of object of `name` and `namespace`
strings. -/
theorem data_source_type_kubernetes_resource (wide : Char → Bool) :
    ∃ t, GetDataSourceType wide "kubernetes_resource" = some (t, none) ∧
      t = TfType.Object (GoMap.ofList
        [ ("api_version", TfType.String),
          ("kind", TfType.String),
          ("object", TfType.DynamicPseudoType),
          ("wait_for", TfType.Object (GoMap.ofList [("fields", TfType.Map TfType.String)])),
          ("metadata", TfType.List (TfType.Object (GoMap.ofList
            [("name", TfType.String), ("namespace", TfType.String)]))) ]) ∧
      (fieldNames t).Nodup ∧
      (∀ k, k ∈ fieldNames t ↔
        k ∈ ["api_version", "kind", "object", "wait_for", "metadata"]) ∧
      attributeType t "api_version" = some TfType.String ∧
      attributeType t "kind" = some TfType.String ∧
      attributeType t "object" = some TfType.DynamicPseudoType ∧
      attributeType t "wait_for" =
        some (TfType.Object (GoMap.ofList [("fields", TfType.Map TfType.String)])) ∧
      attributeType t "metadata" =
        some (TfType.List (TfType.Object (GoMap.ofList
          [("name", TfType.String), ("namespace", TfType.String)]))) := by
  refine ⟨_, rfl, rfl, ?_, ?_, rfl, rfl, rfl, rfl, rfl⟩
  · show List.Nodup ["api_version", "kind", "metadata", "object", "wait_for"]
    decide
  · intro k
    show k ∈ ["api_version", "kind", "metadata", "object", "wait_for"] ↔ _
    simp only [List.mem_cons, List.mem_singleton, List.not_mem_nil, or_false]
    tauto

/-- C9: the field `wait_for` of the projection of the resource schema
`kubernetes_manifest` and the field `wait_for` of the projection of the data
source schema `kubernetes_resource` are both the object type of `fields` a map
of string, the value of `waitForType`, and the two are equal. -/
theorem wait_for_same_shape :
    ∃ tr td,
      (GoMap.lookup GetProviderResourceSchema "kubernetes_manifest").bind
        GetObjectTypeFromSchema = some tr ∧
      (GoMap.lookup GetProviderDataSourceSchema "kubernetes_resource").bind
        GetObjectTypeFromSchema = some td ∧
      attributeType tr "wait_for" =
        some (TfType.Object (GoMap.ofList [("fields", TfType.Map TfType.String)])) ∧
      attributeType td "wait_for" =
        some (TfType.Object (GoMap.ofList [("fields", TfType.Map TfType.String)])) ∧
      attributeType tr "wait_for" = some waitForType ∧
      attributeType td "wait_for" = some waitForType ∧
      attributeType tr "wait_for" = attributeType td "wait_for" :=
  ⟨_, _, rfl, rfl, rfl, rfl, rfl, rfl, rfl⟩

theorem addAttributes_eq_foldl_pairs (m : GoMap TfType) (attrs : List SchemaAttribute) :
    addAttributes m attrs =
      (attributePairs attrs).foldl (fun acc kv => GoMap.insert acc kv.1 kv.2) m := by
  simp [addAttributes, attributePairs, List.foldl_map]

theorem addAttributes_congr (m : GoMap TfType) (attrs attrs' : List SchemaAttribute)
    (h : attributePairs attrs = attributePairs attrs') :
    addAttributes m attrs = addAttributes m attrs' := by
  rw [addAttributes_eq_foldl_pairs, addAttributes_eq_foldl_pairs, h]

theorem addBlockType_congr (bm : GoMap TfType) (b b' : SchemaNestedBlock)
    (h : nestedSignature b = nestedSignature b') : addBlockType bm b = addBlockType bm b' := by
  simp only [nestedSignature, Prod.mk.injEq] at h
  obtain ⟨hn, hb⟩ := h
  cases hblk : b.Block with
  | none =>
    cases hblk' : b'.Block with
    | none => rw [addBlockType_none bm b hblk, addBlockType_none bm b' hblk']
    | some blk' => simp [hblk, hblk'] at hb
  | some blk =>
    cases hblk' : b'.Block with
    | none => simp [hblk, hblk'] at hb
    | some blk' =>
      simp only [hblk, hblk', Option.map_some', Option.some.injEq] at hb
      rw [addBlockType_some bm b blk hblk, addBlockType_some bm b' blk' hblk', hn]
      simp only [nestedType]
      rw [addAttributes_congr GoMap.empty _ _ hb]

theorem addBlockTypes_congr (bts bts' : List SchemaNestedBlock)
    (h : bts.map nestedSignature = bts'.map nestedSignature) (bm : GoMap TfType) :
    addBlockTypes bm bts = addBlockTypes bm bts' := by
  induction bts generalizing bts' bm with
  | nil =>
    cases bts' with
    | nil => rfl
    | cons _ _ => simp at h
  | cons b rest ih =>
    cases bts' with
    | nil => simp at h
    | cons b' rest' =>
      simp only [List.map_cons, List.cons.injEq] at h
      simp only [addBlockTypes]
      rw [addBlockType_congr bm b b' h.1]
      cases addBlockType bm b' with
      | none => rfl
      | some m => exact ih rest' h.2 m

/-- C10: two schema documents with the same signature, that is the same
sequence of root attribute `(Name, Type)` pairs and the same sequence of nested
blocks compared by `TypeName` and by the sequence of the `(Name, Type)` pairs
of their attributes (a nil `Block` matching only a nil `Block`), have the same
result of `GetObjectTypeFromSchema`, whatever else they differ in: `Version`,
descriptions, description kind, flags, `Nesting`, `MinItems`, `MaxItems`. -/
theorem projection_reads_names_and_types (S S' : Schema)
    (h : schemaSignature S = schemaSignature S') :
    GetObjectTypeFromSchema S = GetObjectTypeFromSchema S' := by
  unfold schemaSignature at h
  cases hS : S.Block with
  | none =>
    cases hS' : S'.Block with
    | none => simp [GetObjectTypeFromSchema, hS, hS']
    | some root' => simp [hS, hS'] at h
  | some root =>
    cases hS' : S'.Block with
    | none => simp [hS, hS'] at h
    | some root' =>
      simp only [hS, hS', Option.map_some', Option.some.injEq, Prod.mk.injEq] at h
      simp only [GetObjectTypeFromSchema, hS, hS']
      rw [addAttributes_congr GoMap.empty _ _ h.1, addBlockTypes_congr _ _ h.2]

/-- C10, at `sampleSchema` and `sampleSchemaVariant`, which differ in version,
descriptions, description kind, flags, nesting mode and item bounds: they have
the same signature and the same projection, an object type with the fields
`id` and `rule`. -/
theorem projection_reads_names_and_types_witness :
    schemaSignature sampleSchema = schemaSignature sampleSchemaVariant ∧
    sampleSchema.Version ≠ sampleSchemaVariant.Version ∧
    GetObjectTypeFromSchema sampleSchema = GetObjectTypeFromSchema sampleSchemaVariant ∧
    GetObjectTypeFromSchema sampleSchemaVariant =
      some (TfType.Object (GoMap.ofList
        [ ("id", TfType.String),
          ("rule", TfType.List (TfType.Object (GoMap.ofList
            [("port", TfType.Number), ("open", TfType.Bool)]))) ])) :=
  ⟨rfl, by decide, projection_reads_names_and_types sampleSchema sampleSchemaVariant rfl, rfl⟩

/-! ## The contents of the registries -/

theorem registered_cases (S : Schema) (h : Registered S) :
    S = kubernetesManifestSchema ∨ S = kubernetesResourceSchema := by
  obtain ⟨name, h | h⟩ := h
  · left
    have hk : name ∈ GoMap.keys GetProviderResourceSchema := by
      by_contra hk
      rw [(GoMap.lookup_eq_none_iff _ _).2 hk] at h
      cases h
    rw [(mem_keys_resource_registry name).1 hk, lookup_resource_registry] at h
    exact (Option.some.inj h).symm
  · right
    have hk : name ∈ GoMap.keys GetProviderDataSourceSchema := by
      by_contra hk
      rw [(GoMap.lookup_eq_none_iff _ _).2 hk] at h
      cases h
    rw [(mem_keys_data_source_registry name).1 hk, lookup_data_source_registry] at h
    exact (Option.some.inj h).symm

theorem registered_manifest : Registered kubernetesManifestSchema :=
  ⟨"kubernetes_manifest", Or.inl rfl⟩

theorem registered_resource : Registered kubernetesResourceSchema :=
  ⟨"kubernetes_resource", Or.inr rfl⟩

/-- C11: the resource registry has exactly one key, `kubernetes_manifest`, the
data-source registry has exactly one key, `kubernetes_resource`, and the
schema document under each key has `Version` 1. -/
theorem registries_one_entry :
    GoMap.keys GetProviderResourceSchema = ["kubernetes_manifest"] ∧
    GoMap.keys GetProviderDataSourceSchema = ["kubernetes_resource"] ∧
    (∀ name, name ∈ GoMap.keys GetProviderResourceSchema ↔ name = "kubernetes_manifest") ∧
    (∀ name, name ∈ GoMap.keys GetProviderDataSourceSchema ↔ name = "kubernetes_resource") ∧
    (∀ name S, GoMap.lookup GetProviderResourceSchema name = some S →
      name = "kubernetes_manifest" ∧ S.Version = 1) ∧
    (∀ name S, GoMap.lookup GetProviderDataSourceSchema name = some S →
      name = "kubernetes_resource" ∧ S.Version = 1) ∧
    (∃ S, GoMap.lookup GetProviderResourceSchema "kubernetes_manifest" = some S ∧
      S.Version = 1) ∧
    (∃ S, GoMap.lookup GetProviderDataSourceSchema "kubernetes_resource" = some S ∧
      S.Version = 1) := by
  refine ⟨rfl, rfl, mem_keys_resource_registry, mem_keys_data_source_registry, ?_, ?_,
    ⟨_, rfl, rfl⟩, ⟨_, rfl, rfl⟩⟩
  · intro name S h
    have hk : name ∈ GoMap.keys GetProviderResourceSchema := by
      by_contra hk
      rw [(GoMap.lookup_eq_none_iff _ _).2 hk] at h
      cases h
    have hn := (mem_keys_resource_registry name).1 hk
    rw [hn, lookup_resource_registry] at h
    rw [← Option.some.inj h]
    exact ⟨hn, rfl⟩
  · intro name S h
    have hk : name ∈ GoMap.keys GetProviderDataSourceSchema := by
      by_contra hk
      rw [(GoMap.lookup_eq_none_iff _ _).2 hk] at h
      cases h
    have hn := (mem_keys_data_source_registry name).1 hk
    rw [hn, lookup_data_source_registry] at h
    rw [← Option.some.inj h]
    exact ⟨hn, rfl⟩

/-- C12: in every registered schema document the names of the root attributes
and the type names of the root nested blocks are pairwise distinct, the two
together included, and inside every nested block the attribute names are
pairwise distinct; the projection has as many fields as the root block has
attributes and nested blocks, so no two of them collide. -/
theorem registered_names_distinct (S : Schema) (h : Registered S) :
    ∃ root, S.Block = some root ∧
      (root.Attributes.map (fun a => a.Name)).Nodup ∧
      (root.BlockTypes.map (fun b => b.TypeName)).Nodup ∧
      (∀ k, k ∈ root.Attributes.map (fun a => a.Name) →
        k ∉ root.BlockTypes.map (fun b => b.TypeName)) ∧
      (root.Attributes.map (fun a => a.Name) ++
        root.BlockTypes.map (fun b => b.TypeName)).Nodup ∧
      (∀ b ∈ root.BlockTypes, (nestedAttributeNames b).Nodup) ∧
      ∃ t, GetObjectTypeFromSchema S = some t ∧
        (fieldNames t).length = root.Attributes.length + root.BlockTypes.length := by
  rcases registered_cases S h with rfl | rfl
  · exact ⟨_, rfl, by decide, by decide, by decide, by decide, by decide, _, rfl, rfl⟩
  · exact ⟨_, rfl, by decide, by decide, by decide, by decide, by decide, _, rfl, rfl⟩

/-- C12, at the schema document registered under `kubernetes_manifest`: the six
names `manifest`, `object`, `wait_for`, `computed_fields`, `timeouts`,
`field_manager` are pairwise distinct and the projection has six fields. -/
theorem registered_names_distinct_witness :
    Registered kubernetesManifestSchema ∧
    ∃ root, kubernetesManifestSchema.Block = some root ∧
      (root.Attributes.map (fun a => a.Name)).Nodup ∧
      (root.BlockTypes.map (fun b => b.TypeName)).Nodup ∧
      (∀ k, k ∈ root.Attributes.map (fun a => a.Name) →
        k ∉ root.BlockTypes.map (fun b => b.TypeName)) ∧
      (root.Attributes.map (fun a => a.Name) ++
        root.BlockTypes.map (fun b => b.TypeName)).Nodup ∧
      (∀ b ∈ root.BlockTypes, (nestedAttributeNames b).Nodup) ∧
      ∃ t, GetObjectTypeFromSchema kubernetesManifestSchema = some t ∧
        (fieldNames t).length = root.Attributes.length + root.BlockTypes.length :=
  ⟨registered_manifest, registered_names_distinct kubernetesManifestSchema registered_manifest⟩

/-- C13: every attribute that a registered schema document declares, at the
root block or inside a nested block of the root block, has exactly one of
`Required` and `Optional` set, and does not have both `Required` and `Computed`
set; the nested blocks declare no nested blocks in turn, so these are all the
attributes. -/
theorem registered_attribute_flags (S : Schema) (h : Registered S) :
    (∀ a ∈ declaredAttributes S,
      ((a.Required = true ∧ a.Optional = false) ∨ (a.Required = false ∧ a.Optional = true)) ∧
      ¬ (a.Required = true ∧ a.Computed = true)) ∧
    (∀ b ∈ declaredBlockTypes S, (nestedBlockTypes b).length = 0) := by
  rcases registered_cases S h with rfl | rfl
  · exact ⟨by decide, by decide⟩
  · exact ⟨by decide, by decide⟩

/-- C13, at the two registered schema documents: they declare fifteen
attributes between them, nine and six, and each has exactly one of `Required`
and `Optional` set and not both `Required` and `Computed`. -/
theorem registered_attribute_flags_witness :
    (Registered kubernetesManifestSchema ∧
      (declaredAttributes kubernetesManifestSchema).map (fun a => a.Name) =
        ["manifest", "object", "wait_for", "computed_fields", "create", "update", "delete",
          "name", "force_conflicts"] ∧
      ∀ a ∈ declaredAttributes kubernetesManifestSchema,
        ((a.Required = true ∧ a.Optional = false) ∨
          (a.Required = false ∧ a.Optional = true)) ∧
        ¬ (a.Required = true ∧ a.Computed = true)) ∧
    (Registered kubernetesResourceSchema ∧
      (declaredAttributes kubernetesResourceSchema).map (fun a => a.Name) =
        ["api_version", "kind", "object", "wait_for", "name", "namespace"] ∧
      ∀ a ∈ declaredAttributes kubernetesResourceSchema,
        ((a.Required = true ∧ a.Optional = false) ∨
          (a.Required = false ∧ a.Optional = true)) ∧
        ¬ (a.Required = true ∧ a.Computed = true)) :=
  ⟨⟨registered_manifest, rfl,
    (registered_attribute_flags kubernetesManifestSchema registered_manifest).1⟩,
   ⟨registered_resource, rfl,
    (registered_attribute_flags kubernetesResourceSchema registered_resource).1⟩⟩

/-- C14: every nested block of a registered schema document has list nesting
and `MaxItems` 1, and its `MinItems` is at most its `MaxItems`; the nested
blocks of `kubernetes_manifest` are `timeouts` and `field_manager`, both of
`MinItems` 0, and the nested block of `kubernetes_resource` is `metadata`, of
`MinItems` 1. -/
theorem registered_nested_block_bounds :
    (∀ S, Registered S → ∀ b ∈ declaredBlockTypes S,
      b.Nesting = SchemaNestedBlockNestingMode.List ∧ b.MaxItems = 1 ∧
        b.MinItems ≤ b.MaxItems) ∧
    (declaredBlockTypes kubernetesManifestSchema).map
        (fun b => (b.TypeName, b.MinItems, b.MaxItems)) =
      [("timeouts", 0, 1), ("field_manager", 0, 1)] ∧
    (declaredBlockTypes kubernetesResourceSchema).map
        (fun b => (b.TypeName, b.MinItems, b.MaxItems)) =
      [("metadata", 1, 1)] := by
  refine ⟨?_, rfl, rfl⟩
  intro S h
  rcases registered_cases S h with rfl | rfl
  · decide
  · decide

/-- C14, at the schema document registered under `kubernetes_resource`: its one
nested block, `metadata`, has list nesting, `MinItems` 1 and `MaxItems` 1. -/
theorem registered_nested_block_bounds_witness :
    Registered kubernetesResourceSchema ∧
    (declaredBlockTypes kubernetesResourceSchema).map (fun b => b.TypeName) = ["metadata"] ∧
    ∀ b ∈ declaredBlockTypes kubernetesResourceSchema,
      b.Nesting = SchemaNestedBlockNestingMode.List ∧ b.MaxItems = 1 ∧
        b.MinItems ≤ b.MaxItems :=
  ⟨registered_resource, rfl,
    registered_nested_block_bounds.1 kubernetesResourceSchema registered_resource⟩

theorem registered_blocks_present (S : Schema) (h : Registered S) :
    ∃ root, S.Block = some root ∧ ∀ b ∈ root.BlockTypes, b.Block ≠ none := by
  rcases registered_cases S h with rfl | rfl
  · exact ⟨_, rfl, by decide⟩
  · exact ⟨_, rfl, by decide⟩

/-- C18: for every name, `GetResourceType` and `GetDataSourceType` return a type
and an error without a panic, and the type is an object type or the dynamic
type; every registered schema document has a root block, and every nested
block of it has a block. -/
theorem lookups_total :
    (∀ S, Registered S →
      ∃ root, S.Block = some root ∧ ∀ b ∈ root.BlockTypes, b.Block ≠ none) ∧
    (∀ name : String, ∃ t err, GetResourceType name = some (t, err) ∧
      ((∃ m, t = TfType.Object m) ∨ t = TfType.DynamicPseudoType)) ∧
    (∀ (wide : Char → Bool) (name : String),
      ∃ t err, GetDataSourceType wide name = some (t, err) ∧
        ((∃ m, t = TfType.Object m) ∨ t = TfType.DynamicPseudoType)) := by
  refine ⟨registered_blocks_present, ?_, ?_⟩
  · intro name
    cases hl : GoMap.lookup GetProviderResourceSchema name with
    | none =>
      exact ⟨_, _, getResourceType_of_not_mem name ((GoMap.lookup_eq_none_iff _ _).1 hl),
        Or.inr rfl⟩
    | some S =>
      obtain ⟨root, hroot, hnb⟩ := registered_blocks_present S ⟨name, Or.inl hl⟩
      obtain ⟨m, _, hS⟩ := projection_returns S root hroot hnb
      exact ⟨_, none, by simp [GetResourceType, hl, hS], Or.inl ⟨m, rfl⟩⟩
  · intro wide name
    cases hl : GoMap.lookup GetProviderDataSourceSchema name with
    | none =>
      exact ⟨_, _, getDataSourceType_of_not_mem wide name ((GoMap.lookup_eq_none_iff _ _).1 hl),
        Or.inr rfl⟩
    | some S =>
      obtain ⟨root, hroot, hnb⟩ := registered_blocks_present S ⟨name, Or.inr hl⟩
      obtain ⟨m, _, hS⟩ := projection_returns S root hroot hnb
      exact ⟨_, none, by simp [GetDataSourceType, hl, hS], Or.inl ⟨m, rfl⟩⟩

/-! ## Sequences of writes: the last one wins -/

theorem lastWrite_eq_none_of_not_mem {β : Type} (kvs : List (String × β)) (k : String)
    (h : k ∉ kvs.map Prod.fst) : lastWrite kvs k = none := by
  induction kvs with
  | nil => rfl
  | cons kv rest ih =>
    simp only [List.map_cons, List.mem_cons, not_or] at h
    simp only [lastWrite, ih h.2]
    rw [if_neg (fun e => h.1 e.symm)]

theorem lastWrite_append {β : Type} (pre post : List (String × β)) (k : String) :
    lastWrite (pre ++ post) k =
      match lastWrite post k with
      | some v => some v
      | none => lastWrite pre k := by
  induction pre with
  | nil =>
    simp only [List.nil_append]
    cases lastWrite post k <;> rfl
  | cons kv rest ih =>
    have hstep : lastWrite (kv :: (rest ++ post)) k =
        match lastWrite (rest ++ post) k with
        | some v => some v
        | none => if kv.1 = k then some kv.2 else none := rfl
    rw [List.cons_append, hstep, ih]
    cases lastWrite post k with
    | some w => rfl
    | none => rfl

theorem lastWrite_split {β : Type} (pre post : List (String × β)) (k : String) (v : β)
    (hpost : ∀ p ∈ post, p.1 ≠ k) : lastWrite (pre ++ (k, v) :: post) k = some v := by
  have hnone : lastWrite post k = none := by
    apply lastWrite_eq_none_of_not_mem
    intro hk
    obtain ⟨p, hp, hpk⟩ := List.mem_map.1 hk
    exact hpost p hp hpk
  rw [lastWrite_append]
  simp [lastWrite, hnone]

theorem lastWrite_eq_some_iff {β : Type} (kvs : List (String × β))
    (hnd : (kvs.map Prod.fst).Nodup) (k : String) (v : β) :
    lastWrite kvs k = some v ↔ (k, v) ∈ kvs := by
  induction kvs with
  | nil => simp [lastWrite]
  | cons kv rest ih =>
    simp only [List.map_cons, List.nodup_cons] at hnd
    obtain ⟨hhd, hrest⟩ := hnd
    constructor
    · intro h
      simp only [lastWrite] at h
      cases hl : lastWrite rest k with
      | some w =>
        rw [hl] at h
        simp only [Option.some.injEq] at h
        rw [h] at hl
        exact List.mem_cons_of_mem _ ((ih hrest).1 hl)
      | none =>
        rw [hl] at h
        simp only at h
        split_ifs at h with hk
        simp only [Option.some.injEq] at h
        rw [← hk, ← h]
        exact List.mem_cons_self _ _
    · intro h
      rcases List.mem_cons.1 h with e | hmem
      · have hnone : lastWrite rest k = none := by
          apply lastWrite_eq_none_of_not_mem
          rw [← e] at hhd
          exact hhd
        simp [lastWrite, hnone, ← e]
      · simp [lastWrite, (ih hrest).2 hmem]

theorem lastWrite_perm {β : Type} (kvs kvs' : List (String × β)) (hp : kvs.Perm kvs')
    (hnd : (kvs.map Prod.fst).Nodup) (k : String) : lastWrite kvs k = lastWrite kvs' k := by
  have hnd' : (kvs'.map Prod.fst).Nodup := ((hp.map Prod.fst).nodup_iff).1 hnd
  apply Option.ext
  intro v
  show lastWrite kvs k = some v ↔ lastWrite kvs' k = some v
  rw [lastWrite_eq_some_iff kvs hnd, lastWrite_eq_some_iff kvs' hnd', hp.mem_iff]

theorem GoMap.insertAll_nil {β : Type} (m : GoMap β) : GoMap.insertAll m [] = m := rfl

theorem GoMap.insertAll_cons {β : Type} (m : GoMap β) (kv : String × β)
    (rest : List (String × β)) :
    GoMap.insertAll m (kv :: rest) = GoMap.insertAll (GoMap.insert m kv.1 kv.2) rest := rfl

theorem GoMap.insertAll_append {β : Type} (m : GoMap β) (pre post : List (String × β)) :
    GoMap.insertAll m (pre ++ post) = GoMap.insertAll (GoMap.insertAll m pre) post := by
  simp [GoMap.insertAll, List.foldl_append]

theorem GoMap.lookup_insertAll {β : Type} (kvs : List (String × β)) (m : GoMap β)
    (k : String) :
    GoMap.lookup (GoMap.insertAll m kvs) k =
      match lastWrite kvs k with
      | some v => some v
      | none => GoMap.lookup m k := by
  induction kvs generalizing m with
  | nil => rfl
  | cons kv rest ih =>
    rw [GoMap.insertAll_cons, ih]
    simp only [lastWrite]
    cases lastWrite rest k with
    | some w => rfl
    | none =>
      by_cases hk : kv.1 = k
      · simp only [hk, if_true]
        rw [← hk]
        exact GoMap.lookup_insert_self m kv.1 kv.2
      · simp only [hk, if_false]
        exact GoMap.lookup_insert_of_ne m kv.1 kv.2 k (fun e => hk e.symm)

theorem GoMap.sorted_insertAll {β : Type} (kvs : List (String × β)) (m : GoMap β)
    (hm : GoMap.Sorted m) : GoMap.Sorted (GoMap.insertAll m kvs) := by
  induction kvs generalizing m with
  | nil => exact hm
  | cons kv rest ih =>
    rw [GoMap.insertAll_cons]
    exact ih _ (GoMap.sorted_insert m kv.1 kv.2 hm)

theorem GoMap.lookup_eq_none_of_lt {β : Type} (m : GoMap β) (k : String) (h : ∀ p ∈ m, keyLt k p.1 = true) : GoMap.lookup m k = none := by
  rw [GoMap.lookup_eq_none_iff]
  intro hk
  obtain ⟨p, hp, hpk⟩ := List.mem_map.1 hk
  have := h p hp
  rw [hpk, keyLt_irrefl] at this
  exact Bool.false_ne_true this

theorem GoMap.ext_of_sorted {β : Type} (m m' : GoMap β) (hm : GoMap.Sorted m)
    (hm' : GoMap.Sorted m') (h : ∀ k, GoMap.lookup m k = GoMap.lookup m' k) : m = m' := by
  induction m generalizing m' with
  | nil =>
    cases m' with
    | nil => rfl
    | cons hd' tl' =>
      have := h hd'.1
      simp [GoMap.lookup] at this
  | cons hd tl ih =>
    cases m' with
    | nil =>
      have := h hd.1
      simp [GoMap.lookup] at this
    | cons hd' tl' =>
      obtain ⟨k, v⟩ := hd
      obtain ⟨k', v'⟩ := hd'
      unfold GoMap.Sorted at hm hm'
      rw [List.pairwise_cons] at hm hm'
      obtain ⟨hhd, htl⟩ := hm
      obtain ⟨hhd', htl'⟩ := hm'
      have hk : k = k' := by
        by_contra hne
        by_cases hlt : keyLt k k' = true
        · have h1 := h k
          have h2 : GoMap.lookup tl' k = none :=
            GoMap.lookup_eq_none_of_lt tl' k
              (fun p hp => keyLt_trans hlt (hhd' p hp))
          simp [GoMap.lookup, hne, h2] at h1
        · have hgt : keyLt k' k = true :=
            keyLt_total (by simpa using hlt) hne
          have h1 := h k'
          have h2 : GoMap.lookup tl k' = none :=
            GoMap.lookup_eq_none_of_lt tl k'
              (fun p hp => keyLt_trans hgt (hhd p hp))
          have hne' : ¬ k' = k := fun e => hne e.symm
          simp [GoMap.lookup, hne', h2] at h1
      subst hk
      have hv : v = v' := by
        have h1 := h k
        simpa [GoMap.lookup] using h1
      subst hv
      have htleq : tl = tl' := by
        apply ih tl' htl htl'
        intro x
        by_cases hx : x = k
        · subst hx
          rw [GoMap.lookup_eq_none_of_lt tl x hhd,
            GoMap.lookup_eq_none_of_lt tl' x hhd']
        · have h1 := h x
          simpa [GoMap.lookup, hx] using h1
      rw [htleq]

theorem GoMap.insertAll_perm {β : Type} (m : GoMap β) (hm : GoMap.Sorted m)
    (kvs kvs' : List (String × β)) (hp : kvs.Perm kvs') (hnd : (kvs.map Prod.fst).Nodup) :
    GoMap.insertAll m kvs = GoMap.insertAll m kvs' := by
  apply GoMap.ext_of_sorted _ _ (GoMap.sorted_insertAll kvs m hm)
    (GoMap.sorted_insertAll kvs' m hm)
  intro k
  rw [GoMap.lookup_insertAll, GoMap.lookup_insertAll, lastWrite_perm kvs kvs' hp hnd k]

/-! ## The projection as one sequence of writes -/

theorem addAttributes_eq_insertAll (m : GoMap TfType) (attrs : List SchemaAttribute) :
    addAttributes m attrs = GoMap.insertAll m (attributePairs attrs) :=
  addAttributes_eq_foldl_pairs m attrs

theorem ofList_eq_insertAll {β : Type} (kvs : List (String × β)) :
    GoMap.ofList kvs = GoMap.insertAll GoMap.empty kvs := rfl

theorem nestedType_eq (blk : SchemaBlock) :
    nestedType blk =
      TfType.List (TfType.Object (GoMap.ofList (attributePairs blk.Attributes))) := by
  rw [nestedType, addAttributes_eq_ofList]

theorem blockPairs_cons_some (b : SchemaNestedBlock) (rest : List SchemaNestedBlock)
    (blk : SchemaBlock) (hb : b.Block = some blk) :
    blockPairs (b :: rest) = (b.TypeName, nestedType blk) :: blockPairs rest := by
  simp [blockPairs, List.filterMap_cons, hb, nestedType_eq]

theorem addBlockTypes_eq_insertAll (bts : List SchemaNestedBlock) (bm : GoMap TfType)
    (h : ∀ b ∈ bts, b.Block ≠ none) :
    addBlockTypes bm bts = some (GoMap.insertAll bm (blockPairs bts)) := by
  induction bts generalizing bm with
  | nil => rfl
  | cons b rest ih =>
    obtain ⟨blk, hblk⟩ := Option.ne_none_iff_exists'.1 (h b (List.mem_cons_self b rest))
    rw [addBlockTypes_cons_some bm b rest blk hblk, blockPairs_cons_some b rest blk hblk,
      GoMap.insertAll_cons]
    exact ih _ (fun c hc => h c (List.mem_cons_of_mem b hc))

theorem keys_blockPairs (bts : List SchemaNestedBlock) (h : ∀ b ∈ bts, b.Block ≠ none) :
    (blockPairs bts).map Prod.fst = bts.map (fun b => b.TypeName) := by
  induction bts with
  | nil => rfl
  | cons b rest ih =>
    obtain ⟨blk, hblk⟩ := Option.ne_none_iff_exists'.1 (h b (List.mem_cons_self b rest))
    rw [blockPairs_cons_some b rest blk hblk, List.map_cons, List.map_cons,
      ih (fun c hc => h c (List.mem_cons_of_mem b hc))]

theorem projection_eq_insertAll (S : Schema) (root : SchemaBlock) (hroot : S.Block = some root)
    (hnb : ∀ b ∈ root.BlockTypes, b.Block ≠ none) :
    GetObjectTypeFromSchema S =
      some (TfType.Object (GoMap.insertAll GoMap.empty
        (attributePairs root.Attributes ++ blockPairs root.BlockTypes))) := by
  simp only [GetObjectTypeFromSchema, hroot]
  rw [addBlockTypes_eq_insertAll _ _ hnb, addAttributes_eq_insertAll, GoMap.insertAll_append]

theorem lookup_insertAll_empty {β : Type} (kvs : List (String × β)) (k : String) :
    GoMap.lookup (GoMap.insertAll GoMap.empty kvs) k = lastWrite kvs k := by
  rw [GoMap.lookup_insertAll]
  cases lastWrite kvs k with
  | some v => rfl
  | none => rfl

/-! ## Permutations of the members -/

theorem addAttributes_perm (m : GoMap TfType) (hm : GoMap.Sorted m)
    (attrs attrs' : List SchemaAttribute) (hp : attrs.Perm attrs')
    (hnd : (attrs.map (fun a => a.Name)).Nodup) :
    addAttributes m attrs = addAttributes m attrs' := by
  rw [addAttributes_eq_insertAll, addAttributes_eq_insertAll]
  apply GoMap.insertAll_perm m hm
  · exact hp.map _
  · simpa [attributePairs] using hnd

theorem addBlockTypes_eq_none_of_mem (bts : List SchemaNestedBlock) (bm : GoMap TfType)
    (b : SchemaNestedBlock) (hb : b ∈ bts) (hnil : b.Block = none) :
    addBlockTypes bm bts = none := by
  cases h : addBlockTypes bm bts with
  | none => rfl
  | some m => exact absurd hnil (addBlockTypes_blocks_present bts bm m h b hb)

theorem addBlockTypes_perm (bm : GoMap TfType) (hbm : GoMap.Sorted bm)
    (bts bts' : List SchemaNestedBlock) (hp : bts.Perm bts')
    (hnd : (bts.map (fun b => b.TypeName)).Nodup) :
    addBlockTypes bm bts = addBlockTypes bm bts' := by
  by_cases hall : ∀ b ∈ bts, b.Block ≠ none
  · have hall' : ∀ b ∈ bts', b.Block ≠ none := fun b hb => hall b (hp.mem_iff.2 hb)
    rw [addBlockTypes_eq_insertAll bts bm hall, addBlockTypes_eq_insertAll bts' bm hall']
    congr 1
    apply GoMap.insertAll_perm bm hbm
    · exact hp.filterMap _
    · rw [keys_blockPairs bts hall]
      exact hnd
  · simp only [not_forall, not_not] at hall
    obtain ⟨b, hb, hnil⟩ := hall
    rw [addBlockTypes_eq_none_of_mem bts bm b hb hnil,
      addBlockTypes_eq_none_of_mem bts' bm b (hp.mem_iff.1 hb) hnil]

theorem addBlockTypes_cons (bm : GoMap TfType) (b : SchemaNestedBlock)
    (rest : List SchemaNestedBlock) :
    addBlockTypes bm (b :: rest) =
      (addBlockType bm b).bind (fun m => addBlockTypes m rest) := by
  simp only [addBlockTypes]
  cases addBlockType bm b with
  | none => rfl
  | some m => rfl

theorem addBlockTypes_replace (bm : GoMap TfType) (pre post : List SchemaNestedBlock)
    (b b' : SchemaNestedBlock) (h : ∀ m, addBlockType m b = addBlockType m b') :
    addBlockTypes bm (pre ++ b :: post) = addBlockTypes bm (pre ++ b' :: post) := by
  rw [addBlockTypes_append, addBlockTypes_append]
  cases addBlockTypes bm pre with
  | none => rfl
  | some m =>
    simp only [Option.some_bind]
    rw [addBlockTypes_cons, addBlockTypes_cons, h m]

/-- C17: for a schema document whose root attribute names and root nested-block
type names are pairwise distinct, the two together included, and whose nested
blocks each have pairwise distinct attribute names, `GetObjectTypeFromSchema`
returns the same result after a permutation of the root attributes, after a
permutation of the root nested blocks, and after a permutation of the
attributes inside one nested block; the result is an object type when every
nested block has a block. -/
theorem projection_permutation_invariant (version blockVersion : Int)
    (attrs : List SchemaAttribute) (bts : List SchemaNestedBlock)
    (desc : String) (kind : StringKind) (deprecated : Bool)
    (hdistinct : (attrs.map (fun a => a.Name) ++ bts.map (fun b => b.TypeName)).Nodup)
    (hinner : ∀ b ∈ bts, (nestedAttributeNames b).Nodup) :
    (∀ attrs', attrs.Perm attrs' →
      GetObjectTypeFromSchema
          { Version := version,
            Block := some (SchemaBlock.mk blockVersion attrs' bts desc kind deprecated) } =
        GetObjectTypeFromSchema
          { Version := version,
            Block := some (SchemaBlock.mk blockVersion attrs bts desc kind deprecated) }) ∧
    (∀ bts', bts.Perm bts' →
      GetObjectTypeFromSchema
          { Version := version,
            Block := some (SchemaBlock.mk blockVersion attrs bts' desc kind deprecated) } =
        GetObjectTypeFromSchema
          { Version := version,
            Block := some (SchemaBlock.mk blockVersion attrs bts desc kind deprecated) }) ∧
    (∀ (pre post : List SchemaNestedBlock) (typeName : String) (innerVersion : Int)
        (inner inner' : List SchemaAttribute) (innerBlocks : List SchemaNestedBlock)
        (innerDesc : String) (innerKind : StringKind) (innerDeprecated : Bool)
        (nesting : SchemaNestedBlockNestingMode) (lo hi : Int),
      bts = pre ++ SchemaNestedBlock.mk typeName
          (some (SchemaBlock.mk innerVersion inner innerBlocks innerDesc innerKind
            innerDeprecated)) nesting lo hi :: post →
      inner.Perm inner' →
      GetObjectTypeFromSchema
          { Version := version,
            Block := some (SchemaBlock.mk blockVersion attrs
              (pre ++ SchemaNestedBlock.mk typeName
                (some (SchemaBlock.mk innerVersion inner' innerBlocks innerDesc innerKind
                  innerDeprecated)) nesting lo hi :: post)
              desc kind deprecated) } =
        GetObjectTypeFromSchema
          { Version := version,
            Block := some (SchemaBlock.mk blockVersion attrs bts desc kind deprecated) }) ∧
    ((∀ b ∈ bts, b.Block ≠ none) →
      ∃ m, GetObjectTypeFromSchema
          { Version := version,
            Block := some (SchemaBlock.mk blockVersion attrs bts desc kind deprecated) } =
        some (TfType.Object m)) := by
  have hattrs : (attrs.map (fun a => a.Name)).Nodup := (List.nodup_append.1 hdistinct).1
  have hbts : (bts.map (fun b => b.TypeName)).Nodup := (List.nodup_append.1 hdistinct).2.1
  refine ⟨?_, ?_, ?_, ?_⟩
  · intro attrs' hp
    simp only [GetObjectTypeFromSchema, SchemaBlock.Attributes, SchemaBlock.BlockTypes]
    rw [addAttributes_perm GoMap.empty GoMap.sorted_empty attrs attrs' hp hattrs]
  · intro bts' hp
    simp only [GetObjectTypeFromSchema, SchemaBlock.Attributes, SchemaBlock.BlockTypes]
    rw [addBlockTypes_perm _ (sorted_addAttributes attrs _ GoMap.sorted_empty) bts bts' hp hbts]
  · intro pre post typeName innerVersion inner inner' innerBlocks innerDesc innerKind
      innerDeprecated nesting lo hi hsplit hp
    have hin : (inner.map (fun a => a.Name)).Nodup := by
      have := hinner (SchemaNestedBlock.mk typeName
        (some (SchemaBlock.mk innerVersion inner innerBlocks innerDesc innerKind
          innerDeprecated)) nesting lo hi) (by rw [hsplit]; simp)
      simpa [nestedAttributeNames, SchemaNestedBlock.Block, SchemaBlock.Attributes] using this
    have hstep : ∀ m, addBlockType m (SchemaNestedBlock.mk typeName
        (some (SchemaBlock.mk innerVersion inner' innerBlocks innerDesc innerKind
          innerDeprecated)) nesting lo hi) =
        addBlockType m (SchemaNestedBlock.mk typeName
        (some (SchemaBlock.mk innerVersion inner innerBlocks innerDesc innerKind
          innerDeprecated)) nesting lo hi) := by
      intro m
      simp only [addBlockType, SchemaNestedBlock.Block, SchemaNestedBlock.TypeName,
        SchemaBlock.Attributes]
      rw [addAttributes_perm GoMap.empty GoMap.sorted_empty inner inner' hp hin]
    simp only [GetObjectTypeFromSchema, SchemaBlock.Attributes, SchemaBlock.BlockTypes]
    rw [hsplit, addBlockTypes_replace _ pre post _ _ hstep]
  · intro hall
    obtain ⟨m, _, hm⟩ := projection_returns
      { Version := version,
        Block := some (SchemaBlock.mk blockVersion attrs bts desc kind deprecated) }
      (SchemaBlock.mk blockVersion attrs bts desc kind deprecated) rfl hall
    exact ⟨m, hm⟩

/-- C17, at the schema document of `sampleAttributes` and `sampleBlockTypes`,
whose names `a`, `b`, `r`, `s` and, inside, `p`, `q` and `u` are distinct:
with the attributes in the order `b`, `a`, with the nested blocks in the order
`s`, `r`, and with the attributes of `r` in the order `q`, `p`, the projection
is the same object type. -/
theorem projection_permutation_invariant_witness :
    GetObjectTypeFromSchema (schemaOf
        [ { Name := "b", Type_ := TfType.Bool, Optional := true },
          { Name := "a", Type_ := TfType.String, Required := true } ]
        sampleBlockTypes) =
      GetObjectTypeFromSchema (schemaOf sampleAttributes sampleBlockTypes) ∧
    GetObjectTypeFromSchema (schemaOf sampleAttributes
        [ nestedOf "s" [ { Name := "u", Type_ := TfType.Bool } ],
          nestedOf "r" [ { Name := "p", Type_ := TfType.Number },
            { Name := "q", Type_ := TfType.String } ] ]) =
      GetObjectTypeFromSchema (schemaOf sampleAttributes sampleBlockTypes) ∧
    GetObjectTypeFromSchema (schemaOf sampleAttributes
        [ nestedOf "r" [ { Name := "q", Type_ := TfType.String },
            { Name := "p", Type_ := TfType.Number } ],
          nestedOf "s" [ { Name := "u", Type_ := TfType.Bool } ] ]) =
      GetObjectTypeFromSchema (schemaOf sampleAttributes sampleBlockTypes) ∧
    GetObjectTypeFromSchema (schemaOf sampleAttributes sampleBlockTypes) =
      some (TfType.Object (GoMap.ofList
        [ ("a", TfType.String), ("b", TfType.Bool),
          ("r", TfType.List (TfType.Object (GoMap.ofList
            [("p", TfType.Number), ("q", TfType.String)]))),
          ("s", TfType.List (TfType.Object (GoMap.ofList [("u", TfType.Bool)]))) ])) :=
  ⟨(projection_permutation_invariant 0 0 sampleAttributes sampleBlockTypes "" StringKind.Plain
      false (by decide) (by decide)).1 _ (List.Perm.swap _ _ _),
   (projection_permutation_invariant 0 0 sampleAttributes sampleBlockTypes "" StringKind.Plain
      false (by decide) (by decide)).2.1 _ (List.Perm.swap _ _ _),
   (projection_permutation_invariant 0 0 sampleAttributes sampleBlockTypes "" StringKind.Plain
      false (by decide) (by decide)).2.2.1 []
      [ nestedOf "s" [ { Name := "u", Type_ := TfType.Bool } ] ] "r" 0
      [ { Name := "p", Type_ := TfType.Number }, { Name := "q", Type_ := TfType.String } ]
      [ { Name := "q", Type_ := TfType.String }, { Name := "p", Type_ := TfType.Number } ]
      [] "" StringKind.Plain false SchemaNestedBlockNestingMode.Invalid 0 0 rfl
      (List.Perm.swap _ _ _),
   rfl⟩

/-! ## The projection on documents with nilable pointers -/

theorem nonNil_map_some {α : Type} (l : List α) : Nilable.nonNil (l.map some) = l := by
  induction l with
  | nil => rfl
  | cons a rest ih => simp [Nilable.nonNil, ih]

theorem nonNil_append {α : Type} (l l' : List (Option α)) :
    Nilable.nonNil (l ++ l') = Nilable.nonNil l ++ Nilable.nonNil l' := by
  induction l with
  | nil => rfl
  | cons x rest ih =>
    cases x with
    | none => simpa [Nilable.nonNil] using ih
    | some a => simp [Nilable.nonNil, ih]

theorem mem_nonNil {α : Type} (l : List (Option α)) (a : α) :
    a ∈ Nilable.nonNil l ↔ some a ∈ l := by
  induction l with
  | nil => simp [Nilable.nonNil]
  | cons x rest ih =>
    cases x with
    | none => simp [Nilable.nonNil, ih]
    | some b => simp [Nilable.nonNil, ih]

theorem eq_map_some_nonNil {α : Type} (l : List (Option α)) (h : ∀ x ∈ l, x ≠ none) :
    l = (Nilable.nonNil l).map some := by
  induction l with
  | nil => rfl
  | cons x rest ih =>
    cases x with
    | none => exact absurd rfl (h none (List.mem_cons_self _ _))
    | some a =>
      have hrest := ih (fun y hy => h y (List.mem_cons_of_mem _ hy))
      simp only [Nilable.nonNil, List.map_cons]
      rw [← hrest]

theorem GoMap.mem_keys_insertAll {β : Type} (kvs : List (String × β)) (m : GoMap β)
    (x : String) :
    x ∈ GoMap.keys (GoMap.insertAll m kvs) ↔ x ∈ GoMap.keys m ∨ x ∈ kvs.map Prod.fst := by
  induction kvs generalizing m with
  | nil => simp [GoMap.insertAll_nil]
  | cons kv rest ih =>
    rw [GoMap.insertAll_cons, ih, GoMap.mem_keys_insert]
    simp only [List.map_cons, List.mem_cons]
    tauto

theorem nilable_addAttributes_map_some (l : List SchemaAttribute) (m : GoMap TfType) :
    Nilable.addAttributes m (l.map some) = some (addAttributes m l) := by
  induction l generalizing m with
  | nil => rfl
  | cons a rest ih =>
    simp only [List.map_cons, Nilable.addAttributes]
    rw [ih, addAttributes_cons]

theorem nilable_addAttributes_of_nonNil (l : List (Option SchemaAttribute)) (m : GoMap TfType)
    (h : ∀ x ∈ l, x ≠ none) :
    Nilable.addAttributes m l =
      some (GoMap.insertAll m (attributePairs (Nilable.nonNil l))) := by
  rw [eq_map_some_nonNil l h, nilable_addAttributes_map_some, nonNil_map_some,
    addAttributes_eq_insertAll]

theorem nilable_addAttributes_eq_none (l : List (Option SchemaAttribute)) (m : GoMap TfType)
    (h : none ∈ l) : Nilable.addAttributes m l = none := by
  induction l generalizing m with
  | nil => simp at h
  | cons x rest ih =>
    cases x with
    | none => rfl
    | some a =>
      simp only [Nilable.addAttributes]
      apply ih
      simpa using h

theorem nilable_addBlockType_of_readable (bm : GoMap TfType)
    (b : Option Nilable.SchemaNestedBlock) (h : Nilable.NestedReadable b) :
    ∃ kv, Nilable.blockPair b = some kv ∧
      Nilable.addBlockType bm b = some (GoMap.insert bm kv.1 kv.2) := by
  cases b with
  | none => exact absurd h (by simp [Nilable.NestedReadable])
  | some nb =>
    cases hb : nb.Block with
    | none => simp [Nilable.NestedReadable, hb] at h
    | some blk =>
      simp only [Nilable.NestedReadable, hb] at h
      refine ⟨(nb.TypeName, TfType.List (TfType.Object
        (GoMap.ofList (attributePairs (Nilable.nonNil blk.Attributes))))), ?_, ?_⟩
      · simp only [Nilable.blockPair, hb]
      · simp only [Nilable.addBlockType, hb,
          nilable_addAttributes_of_nonNil blk.Attributes GoMap.empty h]
        rfl

theorem nilable_addBlockType_eq_none (bm : GoMap TfType)
    (b : Option Nilable.SchemaNestedBlock) (h : ¬ Nilable.NestedReadable b) :
    Nilable.addBlockType bm b = none := by
  cases b with
  | none => rfl
  | some nb =>
    cases hb : nb.Block with
    | none => simp [Nilable.addBlockType, hb]
    | some blk =>
      simp only [Nilable.NestedReadable, hb] at h
      have hnone : none ∈ blk.Attributes := by
        by_contra hn
        exact h (fun x hx e => hn (e ▸ hx))
      simp [Nilable.addBlockType, hb, nilable_addAttributes_eq_none blk.Attributes _ hnone]

theorem nilable_addBlockTypes_of_readable (bts : List (Option Nilable.SchemaNestedBlock))
    (bm : GoMap TfType) (h : ∀ x ∈ bts, Nilable.NestedReadable x) :
    Nilable.addBlockTypes bm bts = some (GoMap.insertAll bm (Nilable.blockPairs bts)) := by
  induction bts generalizing bm with
  | nil => rfl
  | cons b rest ih =>
    obtain ⟨kv, hkv, hstep⟩ :=
      nilable_addBlockType_of_readable bm b (h b (List.mem_cons_self _ _))
    have hpairs : Nilable.blockPairs (b :: rest) = kv :: Nilable.blockPairs rest := by
      simp [Nilable.blockPairs, List.filterMap_cons, hkv]
    simp only [Nilable.addBlockTypes, hstep]
    rw [ih _ (fun x hx => h x (List.mem_cons_of_mem _ hx)), hpairs, GoMap.insertAll_cons]

theorem nilable_addBlockTypes_eq_none (bts : List (Option Nilable.SchemaNestedBlock))
    (bm : GoMap TfType) (x : Option Nilable.SchemaNestedBlock) (hx : x ∈ bts)
    (h : ¬ Nilable.NestedReadable x) : Nilable.addBlockTypes bm bts = none := by
  induction bts generalizing bm with
  | nil => simp at hx
  | cons b rest ih =>
    simp only [Nilable.addBlockTypes]
    cases hstep : Nilable.addBlockType bm b with
    | none => rfl
    | some bm' =>
      rcases List.mem_cons.1 hx with e | hmem
      · rw [nilable_addBlockType_eq_none bm b (e ▸ h)] at hstep
        cases hstep
      · exact ih bm' hmem

theorem nilable_blockPair_fst (b : Option Nilable.SchemaNestedBlock)
    (nb : Nilable.SchemaNestedBlock) (kv : String × TfType) (hb : b = some nb)
    (h : Nilable.blockPair b = some kv) : kv.1 = nb.TypeName := by
  subst hb
  cases hblk : nb.Block with
  | none => simp [Nilable.blockPair, hblk] at h
  | some blk =>
    simp only [Nilable.blockPair, hblk, Option.some.injEq] at h
    rw [← h]

theorem nilable_mem_keys_blockPairs (bts : List (Option Nilable.SchemaNestedBlock))
    (h : ∀ x ∈ bts, Nilable.NestedReadable x) (k : String) :
    k ∈ (Nilable.blockPairs bts).map Prod.fst ↔ ∃ nb, some nb ∈ bts ∧ nb.TypeName = k := by
  constructor
  · intro hk
    obtain ⟨kv, hkv, hfst⟩ := List.mem_map.1 hk
    obtain ⟨b, hb, hpair⟩ := List.mem_filterMap.1 hkv
    cases b with
    | none => simp [Nilable.blockPair] at hpair
    | some nb =>
      exact ⟨nb, hb, by rw [← hfst, nilable_blockPair_fst (some nb) nb kv rfl hpair]⟩
  · rintro ⟨nb, hnb, hname⟩
    obtain ⟨kv, hkv, _⟩ := nilable_addBlockType_of_readable GoMap.empty (some nb) (h _ hnb)
    refine List.mem_map.2 ⟨kv, List.mem_filterMap.2 ⟨some nb, hnb, hkv⟩, ?_⟩
    rw [nilable_blockPair_fst (some nb) nb kv rfl hkv, hname]

theorem nilable_projection_of_readable (S : Nilable.Schema) (root : Nilable.SchemaBlock)
    (hroot : S.Block = some root) (hattrs : ∀ x ∈ root.Attributes, x ≠ none)
    (hblocks : ∀ x ∈ root.BlockTypes, Nilable.NestedReadable x) :
    Nilable.GetObjectTypeFromSchema (some S) =
      some (TfType.Object (GoMap.insertAll GoMap.empty (Nilable.writes root))) := by
  simp only [Nilable.GetObjectTypeFromSchema, hroot,
    nilable_addAttributes_of_nonNil root.Attributes GoMap.empty hattrs,
    nilable_addBlockTypes_of_readable root.BlockTypes _ hblocks]
  rw [Nilable.writes, GoMap.insertAll_append]

theorem nilable_projection_returns_iff (S : Nilable.Schema) :
    (∃ t, Nilable.GetObjectTypeFromSchema (some S) = some t) ↔
      ∃ root, S.Block = some root ∧ (∀ x ∈ root.Attributes, x ≠ none) ∧
        ∀ x ∈ root.BlockTypes, Nilable.NestedReadable x := by
  constructor
  · rintro ⟨t, ht⟩
    cases hroot : S.Block with
    | none => simp [Nilable.GetObjectTypeFromSchema, hroot] at ht
    | some root =>
      refine ⟨root, rfl, ?_, ?_⟩
      · intro x hx e
        rw [e] at hx
        simp [Nilable.GetObjectTypeFromSchema, hroot,
          nilable_addAttributes_eq_none root.Attributes GoMap.empty hx] at ht
      · intro x hx
        by_contra hn
        cases hbm : Nilable.addAttributes GoMap.empty root.Attributes with
        | none => simp [Nilable.GetObjectTypeFromSchema, hroot, hbm] at ht
        | some bm =>
          simp [Nilable.GetObjectTypeFromSchema, hroot, hbm,
            nilable_addBlockTypes_eq_none root.BlockTypes bm x hx hn] at ht
  · rintro ⟨root, hroot, hattrs, hblocks⟩
    exact ⟨_, nilable_projection_of_readable S root hroot hattrs hblocks⟩

theorem nilable_addBlockTypes_lift (bts : List SchemaNestedBlock) (bm : GoMap TfType) :
    Nilable.addBlockTypes bm (Nilable.liftBlockTypes bts) = addBlockTypes bm bts := by
  induction bts generalizing bm with
  | nil => rfl
  | cons b rest ih =>
    obtain ⟨tn, blk, n, lo, hi⟩ := b
    cases blk with
    | none => rfl
    | some blk' =>
      obtain ⟨v, attrs, inner, d, dk, dep⟩ := blk'
      simp only [Nilable.liftBlockTypes, Nilable.liftNestedBlock, Nilable.liftBlockPointer,
        Nilable.liftBlock, Nilable.addBlockTypes, Nilable.addBlockType,
        Nilable.SchemaNestedBlock.Block, Nilable.SchemaNestedBlock.TypeName,
        Nilable.SchemaBlock.Attributes, nilable_addAttributes_map_some, addBlockTypes,
        addBlockType, SchemaNestedBlock.Block, SchemaNestedBlock.TypeName,
        SchemaBlock.Attributes]
      exact ih _

theorem nilable_projection_lift (S : Schema) :
    Nilable.GetObjectTypeFromSchema (some (Nilable.liftSchema S)) =
      GetObjectTypeFromSchema S := by
  obtain ⟨v, blk⟩ := S
  cases blk with
  | none => rfl
  | some root =>
    obtain ⟨bv, attrs, bts, d, dk, dep⟩ := root
    simp only [Nilable.GetObjectTypeFromSchema, Nilable.liftSchema, Nilable.liftBlockPointer,
      Nilable.liftBlock, Nilable.SchemaBlock.Attributes, Nilable.SchemaBlock.BlockTypes,
      nilable_addAttributes_map_some, nilable_addBlockTypes_lift, GetObjectTypeFromSchema,
      SchemaBlock.Attributes, SchemaBlock.BlockTypes]

theorem nilable_attributeType (S : Nilable.Schema) (root : Nilable.SchemaBlock)
    (hroot : S.Block = some root) (hattrs : ∀ x ∈ root.Attributes, x ≠ none)
    (hblocks : ∀ x ∈ root.BlockTypes, Nilable.NestedReadable x) :
    ∃ t m, Nilable.GetObjectTypeFromSchema (some S) = some t ∧ t = TfType.Object m ∧
      GoMap.Sorted m ∧ (∀ k, k ∈ fieldNames t ↔ k ∈ (Nilable.writes root).map Prod.fst) ∧
      ∀ n, attributeType t n = lastWrite (Nilable.writes root) n := by
  refine ⟨_, _, nilable_projection_of_readable S root hroot hattrs hblocks, rfl,
    GoMap.sorted_insertAll _ _ GoMap.sorted_empty, ?_, fun n => lookup_insertAll_empty _ n⟩
  intro k
  show k ∈ GoMap.keys (GoMap.insertAll GoMap.empty (Nilable.writes root)) ↔ _
  rw [GoMap.mem_keys_insertAll]
  simp [GoMap.keys, GoMap.empty]

theorem nilable_blockPairs_append (pre post : List (Option Nilable.SchemaNestedBlock)) :
    Nilable.blockPairs (pre ++ post) = Nilable.blockPairs pre ++ Nilable.blockPairs post := by
  simp [Nilable.blockPairs, List.filterMap_append]

theorem nilable_blockPairs_cons (tn : String) (blk : Nilable.SchemaBlock)
    (nesting : SchemaNestedBlockNestingMode) (lo hi : Int)
    (rest : List (Option Nilable.SchemaNestedBlock)) :
    Nilable.blockPairs (some (Nilable.SchemaNestedBlock.mk tn (some blk) nesting lo hi) :: rest) =
      (tn, TfType.List (TfType.Object
        (GoMap.ofList (attributePairs (Nilable.nonNil blk.Attributes))))) ::
        Nilable.blockPairs rest := by
  simp [Nilable.blockPairs, List.filterMap_cons, Nilable.blockPair,
    Nilable.SchemaNestedBlock.Block, Nilable.SchemaNestedBlock.TypeName]

theorem nilable_blockPairs_ne (bts : List (Option Nilable.SchemaNestedBlock)) (n : String)
    (h : ∀ nb, some nb ∈ bts → nb.TypeName ≠ n) :
    ∀ p ∈ Nilable.blockPairs bts, p.1 ≠ n := by
  intro p hp
  obtain ⟨b, hb, hpair⟩ := List.mem_filterMap.1 hp
  cases b with
  | none => simp [Nilable.blockPair] at hpair
  | some nb =>
    rw [nilable_blockPair_fst (some nb) nb p rfl hpair]
    exact h nb hb

theorem attributePairs_nonNil_ne (l : List (Option SchemaAttribute)) (n : String)
    (h : ∀ b, some b ∈ l → b.Name ≠ n) :
    ∀ p ∈ attributePairs (Nilable.nonNil l), p.1 ≠ n := by
  intro p hp
  obtain ⟨b, hb, hbp⟩ := List.mem_map.1 hp
  rw [← hbp]
  exact h b ((mem_nonNil l b).1 hb)

theorem lastWrite_attribute_split (pre post : List (Option SchemaAttribute))
    (a : SchemaAttribute) (tail : List (String × TfType))
    (hpost : ∀ b, some b ∈ post → b.Name ≠ a.Name)
    (htail : ∀ p ∈ tail, p.1 ≠ a.Name) :
    lastWrite (attributePairs (Nilable.nonNil (pre ++ some a :: post)) ++ tail) a.Name =
      some a.Type_ := by
  have hshape : attributePairs (Nilable.nonNil (pre ++ some a :: post)) ++ tail =
      attributePairs (Nilable.nonNil pre) ++
        (a.Name, a.Type_) :: (attributePairs (Nilable.nonNil post) ++ tail) := by
    simp [nonNil_append, Nilable.nonNil, attributePairs]
  rw [hshape]
  apply lastWrite_split
  intro p hp
  rcases List.mem_append.1 hp with h | h
  · exact attributePairs_nonNil_ne post a.Name hpost p h
  · exact htail p h

theorem lastWrite_block_split (head : List (String × TfType))
    (pre post : List (Option Nilable.SchemaNestedBlock)) (tn : String)
    (blk : Nilable.SchemaBlock) (nesting : SchemaNestedBlockNestingMode) (lo hi : Int)
    (hpost : ∀ nb, some nb ∈ post → nb.TypeName ≠ tn) :
    lastWrite (head ++ Nilable.blockPairs
        (pre ++ some (Nilable.SchemaNestedBlock.mk tn (some blk) nesting lo hi) :: post)) tn =
      some (TfType.List (TfType.Object
        (GoMap.ofList (attributePairs (Nilable.nonNil blk.Attributes))))) := by
  rw [nilable_blockPairs_append, nilable_blockPairs_cons, ← List.append_assoc]
  exact lastWrite_split _ _ tn _ (nilable_blockPairs_ne post tn hpost)

theorem mem_keys_writes (root : Nilable.SchemaBlock)
    (hblocks : ∀ x ∈ root.BlockTypes, Nilable.NestedReadable x) (k : String) :
    k ∈ (Nilable.writes root).map Prod.fst ↔
      (∃ a, some a ∈ root.Attributes ∧ a.Name = k) ∨
        (∃ nb, some nb ∈ root.BlockTypes ∧ nb.TypeName = k) := by
  rw [Nilable.writes, List.map_append, List.mem_append,
    nilable_mem_keys_blockPairs root.BlockTypes hblocks k]
  have hleft : k ∈ (attributePairs (Nilable.nonNil root.Attributes)).map Prod.fst ↔
      ∃ a, some a ∈ root.Attributes ∧ a.Name = k := by
    simp only [attributePairs, List.map_map, List.mem_map, Function.comp, mem_nonNil]
  rw [hleft]

/-! ## The claims about every schema document -/

/-- C1, as stated, fails: each of the three documents has a root block, and
every nested block of it has a block, but the function panics, at the nil
attribute of the nested block `b`, at the nil root attribute, and at the nil
element of the nested blocks. -/
theorem projection_field_set_counterexample :
    (∃ root, (Nilable.document [] [Nilable.nested "b" [none]]).Block = some root ∧
      (∀ x ∈ root.BlockTypes, ∃ nb blk, x = some nb ∧ nb.Block = some blk) ∧
      Nilable.GetObjectTypeFromSchema
        (some (Nilable.document [] [Nilable.nested "b" [none]])) = none) ∧
    (∃ root,
      (Nilable.document [none] [Nilable.nested "b"
        [some { Name := "p", Type_ := TfType.String }]]).Block = some root ∧
      (∀ x ∈ root.BlockTypes, ∃ nb blk, x = some nb ∧ nb.Block = some blk) ∧
      Nilable.GetObjectTypeFromSchema
        (some (Nilable.document [none] [Nilable.nested "b"
          [some { Name := "p", Type_ := TfType.String }]])) = none) ∧
    (∃ root,
      (Nilable.document [some { Name := "x", Type_ := TfType.String }] [none]).Block =
        some root ∧
      (∀ nb, some nb ∈ root.BlockTypes → nb.Block ≠ none) ∧
      Nilable.GetObjectTypeFromSchema
        (some (Nilable.document [some { Name := "x", Type_ := TfType.String }] [none])) =
          none) := by
  refine ⟨⟨_, rfl, ?_, rfl⟩, ⟨_, rfl, ?_, rfl⟩, ⟨_, rfl, ?_, rfl⟩⟩
  · intro x hx
    simp only [Nilable.SchemaBlock.BlockTypes, List.mem_singleton] at hx
    exact ⟨_, _, hx, rfl⟩
  · intro x hx
    simp only [Nilable.SchemaBlock.BlockTypes, List.mem_singleton] at hx
    exact ⟨_, _, hx, rfl⟩
  · intro nb hnb
    simp [Nilable.SchemaBlock.BlockTypes] at hnb

/-- C1, amended: for a schema document with a root block, no nil root
attribute and nested-block pointers that are each readable (not nil, with a
block, no attribute of the block nil), `GetObjectTypeFromSchema` returns an
object type; its field names are pairwise distinct, and a name is one of them
exactly when it is the `Name` of a root attribute or the `TypeName` of a root
nested block. -/
theorem projection_field_set (S : Nilable.Schema) (root : Nilable.SchemaBlock)
    (hroot : S.Block = some root) (hattrs : ∀ x ∈ root.Attributes, x ≠ none)
    (hblocks : ∀ x ∈ root.BlockTypes, Nilable.NestedReadable x) :
    ∃ t m, Nilable.GetObjectTypeFromSchema (some S) = some t ∧ t = TfType.Object m ∧
      (fieldNames t).Nodup ∧
      ∀ k, k ∈ fieldNames t ↔
        ((∃ a, some a ∈ root.Attributes ∧ a.Name = k) ∨
          (∃ nb, some nb ∈ root.BlockTypes ∧ nb.TypeName = k)) := by
  obtain ⟨t, m, ht, hm, hsorted, hkeys, _⟩ := nilable_attributeType S root hroot hattrs hblocks
  refine ⟨t, m, ht, hm, ?_, ?_⟩
  · rw [hm]
    exact GoMap.nodup_keys_of_sorted m hsorted
  · intro k
    rw [hkeys k, mem_keys_writes root hblocks k]

/-- C1, amended, at the two registered schema documents, taken as documents of
the nilable type: no pointer that the function reads is nil, and the
projections have the six fields and the five fields of the registered
documents. -/
theorem projection_field_set_witness :
    (∃ root, (Nilable.liftSchema kubernetesManifestSchema).Block = some root ∧
      (∀ x ∈ root.Attributes, x ≠ none) ∧
      (∀ x ∈ root.BlockTypes, Nilable.NestedReadable x) ∧
      ∃ t m, Nilable.GetObjectTypeFromSchema
          (some (Nilable.liftSchema kubernetesManifestSchema)) = some t ∧
        t = TfType.Object m ∧ (fieldNames t).Nodup ∧
        fieldNames t = ["computed_fields", "field_manager", "manifest", "object", "timeouts",
          "wait_for"] ∧
        ∀ k, k ∈ fieldNames t ↔
          ((∃ a, some a ∈ root.Attributes ∧ a.Name = k) ∨
            (∃ nb, some nb ∈ root.BlockTypes ∧ nb.TypeName = k))) ∧
    (∃ root, (Nilable.liftSchema kubernetesResourceSchema).Block = some root ∧
      (∀ x ∈ root.Attributes, x ≠ none) ∧
      (∀ x ∈ root.BlockTypes, Nilable.NestedReadable x) ∧
      ∃ t m, Nilable.GetObjectTypeFromSchema
          (some (Nilable.liftSchema kubernetesResourceSchema)) = some t ∧
        t = TfType.Object m ∧ (fieldNames t).Nodup ∧
        fieldNames t = ["api_version", "kind", "metadata", "object", "wait_for"] ∧
        ∀ k, k ∈ fieldNames t ↔
          ((∃ a, some a ∈ root.Attributes ∧ a.Name = k) ∨
            (∃ nb, some nb ∈ root.BlockTypes ∧ nb.TypeName = k))) := by
  constructor
  · obtain ⟨t, m, ht, hm, hnd, hk⟩ := projection_field_set
      (Nilable.liftSchema kubernetesManifestSchema) _ rfl (by decide) (by decide)
    have hnames : fieldNames t = ["computed_fields", "field_manager", "manifest", "object",
        "timeouts", "wait_for"] := by
      have h3 := Option.some.inj ht.symm
      rw [h3]
      rfl
    exact ⟨_, rfl, by decide, by decide, t, m, ht, hm, hnd, hnames, hk⟩
  · obtain ⟨t, m, ht, hm, hnd, hk⟩ := projection_field_set
      (Nilable.liftSchema kubernetesResourceSchema) _ rfl (by decide) (by decide)
    have hnames : fieldNames t = ["api_version", "kind", "metadata", "object",
        "wait_for"] := by
      have h3 := Option.some.inj ht.symm
      rw [h3]
      rfl
    exact ⟨_, rfl, by decide, by decide, t, m, ht, hm, hnd, hnames, hk⟩

/-- C2, as stated, fails. With the root attributes `x` of type `String` then
`x` of type `Bool`, the field `x` has type `Bool`, not the type of the first
`x`. With the root attribute `x` and a nested block `x`, the field `x` is the
list type of the nested block. With a nested block whose `Block` is nil, and
with a nil root attribute before the attribute `x`, the function panics and
there is no object type. -/
theorem attribute_fidelity_counterexample :
    (∃ t, Nilable.GetObjectTypeFromSchema (some (Nilable.document
        [ some { Name := "x", Type_ := TfType.String },
          some { Name := "x", Type_ := TfType.Bool } ] [])) = some t ∧
      attributeType t "x" = some TfType.Bool ∧
      attributeType t "x" ≠ some TfType.String) ∧
    (∃ t, Nilable.GetObjectTypeFromSchema (some (Nilable.document
        [ some { Name := "x", Type_ := TfType.String } ]
        [ Nilable.nested "x" [] ])) = some t ∧
      attributeType t "x" = some (TfType.List (TfType.Object [])) ∧
      attributeType t "x" ≠ some TfType.String) ∧
    Nilable.GetObjectTypeFromSchema (some (Nilable.document
        [ some { Name := "x", Type_ := TfType.String } ]
        [ Nilable.nested "b" [ some { Name := "p", Type_ := TfType.String } ],
          Nilable.nestedNilBlock "c" ])) = none ∧
    Nilable.GetObjectTypeFromSchema (some (Nilable.document
        [ none, some { Name := "x", Type_ := TfType.String } ] [])) = none := by
  refine ⟨⟨_, rfl, rfl, ?_⟩, ⟨_, rfl, rfl, ?_⟩, rfl, rfl⟩
  · intro h
    cases h
  · intro h
    cases h

/-- C2, amended: for a schema document with a root block, no nil root
attribute and nested-block pointers that are each readable, and an attribute
`a` of the root block that no later root attribute and no root nested block
shares its name with, the projection is an object type whose field `a.Name`
has type exactly `a.Type`. -/
theorem attribute_fidelity (S : Nilable.Schema) (root : Nilable.SchemaBlock)
    (pre post : List (Option SchemaAttribute)) (a : SchemaAttribute)
    (hroot : S.Block = some root) (hattrs : ∀ x ∈ root.Attributes, x ≠ none)
    (hblocks : ∀ x ∈ root.BlockTypes, Nilable.NestedReadable x)
    (hsplit : root.Attributes = pre ++ some a :: post)
    (hpost : ∀ b, some b ∈ post → b.Name ≠ a.Name)
    (hnoblock : ∀ nb, some nb ∈ root.BlockTypes → nb.TypeName ≠ a.Name) :
    ∃ t m, Nilable.GetObjectTypeFromSchema (some S) = some t ∧ t = TfType.Object m ∧
      attributeType t a.Name = some a.Type_ := by
  obtain ⟨t, m, ht, hm, _, _, hlast⟩ := nilable_attributeType S root hroot hattrs hblocks
  refine ⟨t, m, ht, hm, ?_⟩
  rw [hlast a.Name, Nilable.writes, hsplit]
  exact lastWrite_attribute_split pre post a _ hpost
    (nilable_blockPairs_ne root.BlockTypes a.Name hnoblock)

/-- C2, amended, at the second of the root attributes `x` (`String`), `x`
(`Bool`), `z` (`Number`) of a document with the nested block `r`: an earlier
attribute has the same name, the later attribute `z` and the nested block `r`
have other names, and the field `x` has the type `Bool`. -/
theorem attribute_fidelity_witness :
    ∃ t m, Nilable.GetObjectTypeFromSchema (some (Nilable.document
        [ some { Name := "x", Type_ := TfType.String },
          some { Name := "x", Type_ := TfType.Bool },
          some { Name := "z", Type_ := TfType.Number } ]
        [ Nilable.nested "r" [ some { Name := "p", Type_ := TfType.String } ] ])) = some t ∧
      t = TfType.Object m ∧ attributeType t "x" = some TfType.Bool :=
  attribute_fidelity
    (Nilable.document
      [ some { Name := "x", Type_ := TfType.String },
        some { Name := "x", Type_ := TfType.Bool },
        some { Name := "z", Type_ := TfType.Number } ]
      [ Nilable.nested "r" [ some { Name := "p", Type_ := TfType.String } ] ])
    _ [ some { Name := "x", Type_ := TfType.String } ]
    [ some { Name := "z", Type_ := TfType.Number } ]
    { Name := "x", Type_ := TfType.Bool } rfl (by decide) (by decide) rfl
    (by
      intro b hb
      simp only [List.mem_singleton, Option.some.injEq] at hb
      rw [hb]
      decide)
    (by
      intro nb hnb
      simp only [Nilable.SchemaBlock.BlockTypes, Nilable.nested, List.mem_singleton,
        Option.some.injEq] at hnb
      rw [hnb]
      decide)

/-- C3, as stated, fails. With two nested blocks `b`, the first of the one
attribute `p` of type `String` and the second of the one attribute `q` of type
`Bool`, the field `b` is the list type of the second. With another nested
block whose `Block` is nil, and with a nil root attribute beside the nested
block `b`, the function panics and there is no object type. -/
theorem nested_wrapping_counterexample :
    (∃ t, Nilable.GetObjectTypeFromSchema (some (Nilable.document []
        [ Nilable.nested "b" [ some { Name := "p", Type_ := TfType.String } ],
          Nilable.nested "b" [ some { Name := "q", Type_ := TfType.Bool } ] ])) = some t ∧
      attributeType t "b" =
        some (TfType.List (TfType.Object (GoMap.ofList [("q", TfType.Bool)]))) ∧
      attributeType t "b" ≠
        some (TfType.List (TfType.Object (GoMap.ofList [("p", TfType.String)])))) ∧
    Nilable.GetObjectTypeFromSchema (some (Nilable.document []
        [ Nilable.nested "b" [ some { Name := "p", Type_ := TfType.String } ],
          Nilable.nestedNilBlock "c" ])) = none ∧
    Nilable.GetObjectTypeFromSchema (some (Nilable.document [none]
        [ Nilable.nested "b" [ some { Name := "p", Type_ := TfType.String } ] ])) = none := by
  refine ⟨⟨_, rfl, rfl, ?_⟩, rfl, rfl⟩
  intro h
  have e : (some (TfType.List (TfType.Object [("q", TfType.Bool)])) : Option TfType) =
      some (TfType.List (TfType.Object [("p", TfType.String)])) := h
  simp at e

/-- C3, amended: for a schema document with a root block, no nil root
attribute and nested-block pointers that are each readable, and a nested block
of the root block, of type name `tn` and block `blk`, that no later root
nested block shares its type name with, the projection is an object type whose
field `tn` has the type list of object of the `(Name, Type)` pairs of the
attributes of `blk`, whatever the nesting mode `nesting` and the bounds `lo`
and `hi` of the nested block. -/
theorem nested_wrapping (S : Nilable.Schema) (root : Nilable.SchemaBlock)
    (pre post : List (Option Nilable.SchemaNestedBlock)) (tn : String)
    (blk : Nilable.SchemaBlock) (nesting : SchemaNestedBlockNestingMode) (lo hi : Int)
    (hroot : S.Block = some root) (hattrs : ∀ x ∈ root.Attributes, x ≠ none)
    (hblocks : ∀ x ∈ root.BlockTypes, Nilable.NestedReadable x)
    (hsplit : root.BlockTypes =
      pre ++ some (Nilable.SchemaNestedBlock.mk tn (some blk) nesting lo hi) :: post)
    (hpost : ∀ nb, some nb ∈ post → nb.TypeName ≠ tn) :
    ∃ t m, Nilable.GetObjectTypeFromSchema (some S) = some t ∧ t = TfType.Object m ∧
      (∀ x ∈ blk.Attributes, x ≠ none) ∧
      attributeType t tn =
        some (TfType.List (TfType.Object
          (GoMap.ofList (attributePairs (Nilable.nonNil blk.Attributes))))) := by
  obtain ⟨t, m, ht, hm, _, _, hlast⟩ := nilable_attributeType S root hroot hattrs hblocks
  refine ⟨t, m, ht, hm, ?_, ?_⟩
  · have h := hblocks (some (Nilable.SchemaNestedBlock.mk tn (some blk) nesting lo hi))
      (by rw [hsplit]; simp)
    simpa [Nilable.NestedReadable, Nilable.SchemaNestedBlock.Block] using h
  · rw [hlast tn, Nilable.writes, hsplit]
    exact lastWrite_block_split _ pre post tn blk nesting lo hi hpost

/-- C3, amended, at the second of the nested blocks `b` (attribute `p`), `b`
(attribute `q`), `c` (attribute `r`) of a document with the root attribute
`x`: an earlier nested block has the same type name, the later nested block
`c` has another one, and the field `b` has the type list of object of `q` a
bool, for the nesting mode set and the bounds 2 and 5. -/
theorem nested_wrapping_witness :
    ∃ t m, Nilable.GetObjectTypeFromSchema (some (Nilable.document
        [ some { Name := "x", Type_ := TfType.String } ]
        [ Nilable.nested "b" [ some { Name := "p", Type_ := TfType.String } ],
          some (Nilable.SchemaNestedBlock.mk "b"
            (some (Nilable.SchemaBlock.mk 0 [ some { Name := "q", Type_ := TfType.Bool } ] []
              "" StringKind.Plain false))
            SchemaNestedBlockNestingMode.Set 2 5),
          Nilable.nested "c" [ some { Name := "r", Type_ := TfType.Number } ] ])) = some t ∧
      t = TfType.Object m ∧
      (∀ x ∈ [ some ({ Name := "q", Type_ := TfType.Bool } : SchemaAttribute) ], x ≠ none) ∧
      attributeType t "b" =
        some (TfType.List (TfType.Object (GoMap.ofList [("q", TfType.Bool)]))) :=
  nested_wrapping
    (Nilable.document
      [ some { Name := "x", Type_ := TfType.String } ]
      [ Nilable.nested "b" [ some { Name := "p", Type_ := TfType.String } ],
        some (Nilable.SchemaNestedBlock.mk "b"
          (some (Nilable.SchemaBlock.mk 0 [ some { Name := "q", Type_ := TfType.Bool } ] []
            "" StringKind.Plain false))
          SchemaNestedBlockNestingMode.Set 2 5),
        Nilable.nested "c" [ some { Name := "r", Type_ := TfType.Number } ] ])
    _ [ Nilable.nested "b" [ some { Name := "p", Type_ := TfType.String } ] ]
    [ Nilable.nested "c" [ some { Name := "r", Type_ := TfType.Number } ] ]
    "b" (Nilable.SchemaBlock.mk 0 [ some { Name := "q", Type_ := TfType.Bool } ] []
      "" StringKind.Plain false)
    SchemaNestedBlockNestingMode.Set 2 5 rfl (by decide) (by decide) rfl
    (by
      intro nb hnb
      simp only [Nilable.nested, List.mem_singleton, Option.some.injEq] at hnb
      rw [hnb]
      decide)

/-- C16, as stated, fails: each of the two documents has a root attribute `x`
and a root nested block `x`, and the function panics, at the nil `Block` of
the nested block `c` and at the nil attribute of the nested block `x`, so that
there is no field `x`. -/
theorem last_write_wins_counterexample :
    (∃ root, (Nilable.document [ some { Name := "x", Type_ := TfType.String } ]
        [ Nilable.nested "x" [], Nilable.nestedNilBlock "c" ]).Block = some root ∧
      (∃ a, some a ∈ root.Attributes ∧ a.Name = "x") ∧
      (∃ nb, some nb ∈ root.BlockTypes ∧ nb.TypeName = "x") ∧
      Nilable.GetObjectTypeFromSchema (some (Nilable.document
        [ some { Name := "x", Type_ := TfType.String } ]
        [ Nilable.nested "x" [], Nilable.nestedNilBlock "c" ])) = none) ∧
    (∃ root, (Nilable.document [ some { Name := "x", Type_ := TfType.String } ]
        [ Nilable.nested "x" [none] ]).Block = some root ∧
      (∃ a, some a ∈ root.Attributes ∧ a.Name = "x") ∧
      (∃ nb, some nb ∈ root.BlockTypes ∧ nb.TypeName = "x") ∧
      Nilable.GetObjectTypeFromSchema (some (Nilable.document
        [ some { Name := "x", Type_ := TfType.String } ]
        [ Nilable.nested "x" [none] ])) = none) := by
  refine ⟨⟨_, rfl, ⟨_, List.mem_cons_self _ _, rfl⟩, ⟨_, List.mem_cons_self _ _, rfl⟩, rfl⟩,
    ⟨_, rfl, ⟨_, List.mem_cons_self _ _, rfl⟩, ⟨_, List.mem_cons_self _ _, rfl⟩, rfl⟩⟩

/-- C16, amended: for a schema document with a root block, no nil root
attribute and nested-block pointers that are each readable, the projection is
an object type in which the later write wins and the nested blocks are written
after all attributes. The field `n` has the value of the last write to `n` in
the sequence of the root attributes followed by the root nested blocks. A
nested block gives its field the list of object type of its attributes when
no later nested block has its type name, whether or not a root attribute or an
earlier nested block has that name; a root attribute gives its field its type
when no later root attribute and no nested block has its name, whether or not
an earlier attribute has it; and in the object type of a nested block the
field of an attribute has its type when no later attribute of the block has
its name. -/
theorem last_write_wins (S : Nilable.Schema) (root : Nilable.SchemaBlock)
    (hroot : S.Block = some root) (hattrs : ∀ x ∈ root.Attributes, x ≠ none)
    (hblocks : ∀ x ∈ root.BlockTypes, Nilable.NestedReadable x) :
    ∃ t m, Nilable.GetObjectTypeFromSchema (some S) = some t ∧ t = TfType.Object m ∧
      (∀ n, attributeType t n = lastWrite (Nilable.writes root) n) ∧
      (∀ pre post tn blk nesting lo hi,
        root.BlockTypes =
          pre ++ some (Nilable.SchemaNestedBlock.mk tn (some blk) nesting lo hi) :: post →
        (∀ nb, some nb ∈ post → nb.TypeName ≠ tn) →
        attributeType t tn =
          some (TfType.List (TfType.Object
            (GoMap.ofList (attributePairs (Nilable.nonNil blk.Attributes)))))) ∧
      (∀ pre post a,
        root.Attributes = pre ++ some a :: post →
        (∀ b, some b ∈ post → b.Name ≠ a.Name) →
        (∀ nb, some nb ∈ root.BlockTypes → nb.TypeName ≠ a.Name) →
        attributeType t a.Name = some a.Type_) ∧
      (∀ nb blk pre post a,
        some nb ∈ root.BlockTypes → nb.Block = some blk →
        blk.Attributes = pre ++ some a :: post →
        (∀ b, some b ∈ post → b.Name ≠ a.Name) →
        attributeType
          (TfType.Object (GoMap.ofList (attributePairs (Nilable.nonNil blk.Attributes))))
          a.Name = some a.Type_) := by
  obtain ⟨t, m, ht, hm, _, _, hlast⟩ := nilable_attributeType S root hroot hattrs hblocks
  refine ⟨t, m, ht, hm, hlast, ?_, ?_, ?_⟩
  · intro pre post tn blk nesting lo hi hsplit hpost
    rw [hlast tn, Nilable.writes, hsplit]
    exact lastWrite_block_split _ pre post tn blk nesting lo hi hpost
  · intro pre post a hsplit hpost hnoblock
    rw [hlast a.Name, Nilable.writes, hsplit]
    exact lastWrite_attribute_split pre post a _ hpost
      (nilable_blockPairs_ne root.BlockTypes a.Name hnoblock)
  · intro nb blk pre post a _ _ hsplit hpost
    show GoMap.lookup (GoMap.ofList (attributePairs (Nilable.nonNil blk.Attributes))) a.Name = _
    rw [ofList_eq_insertAll, lookup_insertAll_empty, hsplit]
    have h := lastWrite_attribute_split pre post a [] hpost (by simp)
    simpa using h

/-- C16, amended, at the document of the root attributes `x` (`String`), `x`
(`Bool`), `y` (`Number`) and the root nested blocks `y` (attribute `p`), `y`
(attributes `q` of type `String` and `q` of type `Bool`): the field `x` has
the type `Bool` of the second attribute `x`; the field `y` has the list of
object type of the second nested block `y`, not the type `Number` of the
attribute `y`; and in that object type the field `q` has the type `Bool` of
the second attribute `q`. -/
theorem last_write_wins_witness :
    ∃ t, Nilable.GetObjectTypeFromSchema (some (Nilable.document
        [ some { Name := "x", Type_ := TfType.String },
          some { Name := "x", Type_ := TfType.Bool },
          some { Name := "y", Type_ := TfType.Number } ]
        [ Nilable.nested "y" [ some { Name := "p", Type_ := TfType.String } ],
          Nilable.nested "y" [ some { Name := "q", Type_ := TfType.String },
            some { Name := "q", Type_ := TfType.Bool } ] ])) = some t ∧
      attributeType t "x" = some TfType.Bool ∧
      attributeType t "y" = some (TfType.List (TfType.Object [("q", TfType.Bool)])) ∧
      attributeType t "y" ≠ some TfType.Number ∧
      attributeType (TfType.Object [("q", TfType.Bool)]) "q" = some TfType.Bool := by
  obtain ⟨t, _, ht, _, hlast, hblock, hattr, hinner⟩ := last_write_wins
    (Nilable.document
      [ some { Name := "x", Type_ := TfType.String },
        some { Name := "x", Type_ := TfType.Bool },
        some { Name := "y", Type_ := TfType.Number } ]
      [ Nilable.nested "y" [ some { Name := "p", Type_ := TfType.String } ],
        Nilable.nested "y" [ some { Name := "q", Type_ := TfType.String },
          some { Name := "q", Type_ := TfType.Bool } ] ])
    _ rfl (by decide) (by decide)
  have hx : attributeType t "x" = some TfType.Bool :=
    hattr [ some { Name := "x", Type_ := TfType.String } ]
      [ some { Name := "y", Type_ := TfType.Number } ]
      { Name := "x", Type_ := TfType.Bool } rfl
      (by
        intro b hb
        simp only [List.mem_singleton, Option.some.injEq] at hb
        rw [hb]
        decide)
      (by
        intro nb hnb
        simp only [Nilable.SchemaBlock.BlockTypes, Nilable.nested, List.mem_cons,
          List.mem_singleton, Option.some.injEq, List.not_mem_nil, or_false] at hnb
        rcases hnb with e | e <;> rw [e] <;> decide)
  have hy : attributeType t "y" =
      some (TfType.List (TfType.Object [("q", TfType.Bool)])) :=
    hblock [ Nilable.nested "y" [ some { Name := "p", Type_ := TfType.String } ] ] [] "y"
      (Nilable.SchemaBlock.mk 0 [ some { Name := "q", Type_ := TfType.String },
        some { Name := "q", Type_ := TfType.Bool } ] [] "" StringKind.Plain false)
      SchemaNestedBlockNestingMode.Invalid 0 0 rfl (by simp)
  have hq : attributeType (TfType.Object [("q", TfType.Bool)]) "q" = some TfType.Bool :=
    hinner
      (Nilable.SchemaNestedBlock.mk "y"
        (some (Nilable.SchemaBlock.mk 0 [ some { Name := "q", Type_ := TfType.String },
          some { Name := "q", Type_ := TfType.Bool } ] [] "" StringKind.Plain false))
        SchemaNestedBlockNestingMode.Invalid 0 0)
      (Nilable.SchemaBlock.mk 0 [ some { Name := "q", Type_ := TfType.String },
        some { Name := "q", Type_ := TfType.Bool } ] [] "" StringKind.Plain false)
      [ some { Name := "q", Type_ := TfType.String } ] []
      { Name := "q", Type_ := TfType.Bool }
      (List.mem_cons_of_mem _ (List.mem_cons_self _ _)) rfl rfl (by simp)
  refine ⟨t, ht, hx, hy, ?_, hq⟩
  rw [hy]
  intro h
  cases h

end provider
